import Mathlib

/-! Detective Quest: the mansion map, its interactive exploration and its teardown.

A shallow embedding of `Trabalho.c`:

* `Sala` is the type of `Sala *` values: `NULL`, or a pointer to a room holding
  its name and the two child pointers;
* `criarSala`, `atribuir` and `mapaMain` follow the construction done in `main`;
* standard input is the list of characters still unread (after them every read
  reports end of input) and standard output is the list of strings printed, one
  per `printf` call;
* `explorarSalas` is embedded as a step function `passo` on the state
  `Estado` (program point, current room, unread input, output so far): one step
  is one pass through the body of the `while (atual != NULL)` loop, or one
  `getchar()` of the line-discarding loop of the `default` branch;
* `passoMapa` is the same step function on a state that also holds the memory with
  the rooms, the pointer `atual` being a chain of child fields from the root;
* `liberarMapa` is embedded as the list of rooms handed to `free`, in order, each
  room named by the chain of child fields leading to it from the root.
-/

namespace DetectiveQuest

/-! ## Data model -/

/-- Size of the `nome` array of a room, terminator included (`MAX_NOME`). -/
def MAX_NOME : Nat := 50

/-- A `Sala *`: either `NULL` or a pointer to a room with its name and its
`esquerda` and `direita` child pointers. -/
inductive Sala where
  | NULL : Sala
  | node (nome : String) (esquerda : Sala) (direita : Sala) : Sala
  deriving DecidableEq, Repr

/-- Side of a room on which a child pointer is stored. -/
inductive Lado where
  | esquerda : Lado
  | direita : Lado
  deriving DecidableEq, Repr

/-- The call `criarSala(nome)`: `strncpy` copies at most `MAX_NOME - 1` characters
of the name, the terminator is written at index `MAX_NOME - 1`, and both child
pointers are set to `NULL`. Allocation is taken to succeed. -/
def criarSala (nome : String) : Sala :=
  Sala.node (String.mk (nome.data.take (MAX_NOME - 1))) Sala.NULL Sala.NULL

/-- The assignment `raiz->c1->...->ck->lado = filho` of `main`, where `caminho`
is the chain `c1, ..., ck` of child fields followed from `raiz`. -/
def atribuir (raiz : Sala) (caminho : List Lado) (lado : Lado) (filho : Sala) : Sala :=
  match raiz, caminho with
  | Sala.NULL, _ => Sala.NULL
  | Sala.node n e d, [] =>
    match lado with
    | Lado.esquerda => Sala.node n filho d
    | Lado.direita => Sala.node n e filho
  | Sala.node n e d, Lado.esquerda :: resto => Sala.node n (atribuir e resto lado filho) d
  | Sala.node n e d, Lado.direita :: resto => Sala.node n e (atribuir d resto lado filho)

/-- The map assembled by `main`, statement by statement, before it calls
`explorarSalas(hallEntrada)`. -/
def mapaMain : Sala :=
  let hallEntrada := criarSala "Hall de entrada"
  let hallEntrada := atribuir hallEntrada [] Lado.esquerda (criarSala "Sala de Estar")
  let hallEntrada := atribuir hallEntrada [] Lado.direita (criarSala "Biblioteca")
  let hallEntrada := atribuir hallEntrada [Lado.esquerda] Lado.esquerda (criarSala "Cozinha")
  let hallEntrada :=
    atribuir hallEntrada [Lado.esquerda] Lado.direita (criarSala "Jardim de Inverno")
  let hallEntrada :=
    atribuir hallEntrada [Lado.direita] Lado.direita (criarSala "Quarto Principal")
  let hallEntrada :=
    atribuir hallEntrada [Lado.esquerda, Lado.esquerda] Lado.esquerda (criarSala "Despensa")
  let hallEntrada :=
    atribuir hallEntrada [Lado.esquerda, Lado.esquerda] Lado.direita (criarSala "Copa")
  let hallEntrada :=
    atribuir hallEntrada [Lado.esquerda, Lado.esquerda, Lado.direita] Lado.direita
      (criarSala "Varanda Secreta")
  hallEntrada

/-! ## Console input -/

/-- Standard input: the characters not yet read; once they are used up every
read reports end of input. -/
abbrev Stdin := List Char

/-- The call `getchar()`: the next character, or `none` for `EOF`, together with
the input left. -/
def getchar (entrada : Stdin) : Option Char × Stdin :=
  match entrada with
  | [] => (none, [])
  | c :: resto => (some c, resto)

/-- The C `isspace` test: space, tab, line feed, vertical tab, form feed and
carriage return. -/
def isspace (c : Char) : Bool :=
  c = ' ' ∨ c = '\t' ∨ c = '\n' ∨ c = '\x0b' ∨ c = '\x0c' ∨ c = '\r'

/-- The C `tolower` conversion: upper-case letters go to lower case, every other
character is kept. -/
def tolower (c : Char) : Char :=
  if 'A' ≤ c ∧ c ≤ 'Z' then Char.ofNat (c.toNat + 32) else c

/-- The leading blank of the format `" %c"`: white space is skipped. -/
def pularEspacos : Stdin → Stdin
  | [] => []
  | c :: resto => if isspace c then pularEspacos resto else c :: resto

/-- The call `scanf(" %c", &escolha)`: white space is skipped and one character
is stored. `some c` stands for the return value `1` with `escolha = c`; `none`
for a return value other than `1` (the input ended first). -/
def scanfChar (entrada : Stdin) : Option Char × Stdin :=
  match pularEspacos entrada with
  | [] => (none, [])
  | c :: resto => (some c, resto)

/-! ## The exploration loop -/

/-- The ways control leaves `explorarSalas`. -/
inductive Termino where
  /-- The `return` taken when the root is `NULL`. -/
  | mapaVazio : Termino
  /-- The `break` taken at a room without children. -/
  | folha : Termino
  /-- The `break` taken when `scanf` does not return `1`. -/
  | erroLeitura : Termino
  /-- The `return` of `case 's'`. -/
  | sair : Termino
  /-- The loop condition `atual != NULL` found false. -/
  | condicaoFalsa : Termino
  deriving DecidableEq, Repr

/-- Program points of `explorarSalas` between steps. -/
inductive Ponto where
  /-- About to test the condition of `while (atual != NULL)`. -/
  | laco : Ponto
  /-- Inside `while (getchar() != '\n');`, about to call `getchar`. -/
  | limpando : Ponto
  /-- The function has returned. -/
  | fim (t : Termino) : Ponto
  deriving DecidableEq, Repr

/-- State of a run of `explorarSalas`. -/
structure Estado where
  ponto : Ponto
  atual : Sala
  stdin : Stdin
  stdout : List String
  deriving DecidableEq, Repr

/-- The line announcing the current room. -/
def anuncio (nome : String) : String :=
  "\nVoce esta no(a) **" ++ nome ++ "**.\n"

/-- The prompt with the options on offer, one string per `printf`. -/
def opcoes (esquerda direita : Sala) : List String :=
  ["Escolha seu proximo caminho: ", "["]
    ++ (if esquerda ≠ Sala.NULL then ["e (Esquerda) "] else [])
    ++ (if direita ≠ Sala.NULL then ["d (Direita) "] else [])
    ++ ["s (Sair)]: "]

/-- One step of `explorarSalas`: a pass through the body of the main loop, or
one `getchar()` of the loop that discards the rest of a line. -/
def passo (st : Estado) : Estado :=
  match st.ponto with
  | Ponto.fim _ => st
  | Ponto.limpando =>
    match getchar st.stdin with
    | (some c, resto) =>
      if c = '\n' then { st with ponto := Ponto.laco, stdin := resto }
      else { st with stdin := resto }
    | (none, resto) => { st with stdin := resto }
  | Ponto.laco =>
    match st.atual with
    | Sala.NULL => { st with ponto := Ponto.fim Termino.condicaoFalsa }
    | Sala.node nome esquerda direita =>
      let out := st.stdout ++ [anuncio nome]
      if esquerda = Sala.NULL ∧ direita = Sala.NULL then
        { st with
          ponto := Ponto.fim Termino.folha
          stdout :=
            out ++ ["\nEste comodo nao tem mais caminhos a explorar. Fim da jornada!\n"] }
      else
        let out := out ++ opcoes esquerda direita
        match scanfChar st.stdin with
        | (none, resto) =>
          { st with
            ponto := Ponto.fim Termino.erroLeitura
            stdin := resto
            stdout := out ++ ["Erro na leitura. Saindo...\n"] }
        | (some c, resto) =>
          let escolha := tolower c
          if escolha = 'e' then
            if esquerda ≠ Sala.NULL then
              { ponto := Ponto.laco, atual := esquerda, stdin := resto,
                stdout := out ++ ["-> Seguindo para a Esquerda.\n"] }
            else
              { st with
                stdin := resto
                stdout := out ++ ["Caminho a esquerda nao existe. Escolha novamente.\n"] }
          else if escolha = 'd' then
            if direita ≠ Sala.NULL then
              { ponto := Ponto.laco, atual := direita, stdin := resto,
                stdout := out ++ ["-> Seguindo para a Direita.\n"] }
            else
              { st with
                stdin := resto
                stdout := out ++ ["Caminho a direita nao existe. Escolha novamente.\n"] }
          else if escolha = 's' then
            { st with
              ponto := Ponto.fim Termino.sair
              stdin := resto
              stdout := out ++ ["Saindo da mansao... Exploracao encerrada.\n"] }
          else
            { st with
              ponto := Ponto.limpando
              stdin := resto
              stdout := out ++ ["Opcao invalida. Digite 'e', 'd' ou 's'.\n"] }

/-- The state reached after `n` steps. -/
def executar : Nat → Estado → Estado
  | 0, st => st
  | n + 1, st => executar n (passo st)

/-- Entry of `explorarSalas(atual)`: the `NULL` test on the root and the title
line printed before the loop. -/
def entrar (atual : Sala) (entrada : Stdin) : Estado :=
  match atual with
  | Sala.NULL =>
    { ponto := Ponto.fim Termino.mapaVazio, atual := Sala.NULL, stdin := entrada,
      stdout := ["O mapa da mansao esta vazio.\n"] }
  | Sala.node nome esquerda direita =>
    { ponto := Ponto.laco, atual := Sala.node nome esquerda direita, stdin := entrada,
      stdout := ["\n--- Exploracao da Mansao - Detective Quest ---\n"] }

/-- The state of the call `explorarSalas(atual)` on the input `entrada` after
`n` steps. The call has returned when the program point is `Ponto.fim`. -/
def explorarSalas (n : Nat) (atual : Sala) (entrada : Stdin) : Estado :=
  executar n (entrar atual entrada)

/-- The state `st` with `pre` printed before everything `st` has printed. -/
def comSaida (pre : List String) (st : Estado) : Estado :=
  { st with stdout := pre ++ st.stdout }

/-- A choice character that is none of the three markers: it is not white
space (so `scanf` stores it) and its lower-case form is not `e`, `d` or `s`. -/
def tokenInvalido (c : Char) : Bool :=
  !isspace c && tolower c != 'e' && tolower c != 'd' && tolower c != 's'

/-- The report printed by the `default` branch. -/
def msgInvalida : String := "Opcao invalida. Digite 'e', 'd' ou 's'.\n"

/-- The input made of the given lines: each line is its first character, the
rest of its text and the line feed ending it. -/
def linhas (ls : List (Char × List Char)) : Stdin :=
  ls.flatMap fun l => l.1 :: l.2 ++ ['\n']

/-- The field `sala->esquerda` (`NULL` itself has no fields; it is kept). -/
def Sala.esquerda : Sala → Sala
  | Sala.NULL => Sala.NULL
  | Sala.node _ e _ => e

/-- The field `sala->direita` (`NULL` itself has no fields; it is kept). -/
def Sala.direita : Sala → Sala
  | Sala.NULL => Sala.NULL
  | Sala.node _ _ d => d

/-- The title line printed by `explorarSalas` before its loop. -/
def msgTitulo : String := "\n--- Exploracao da Mansao - Detective Quest ---\n"

/-- The line printed at a room without children. -/
def msgFolha : String := "\nEste comodo nao tem mais caminhos a explorar. Fim da jornada!\n"

/-- The line printed by `case 's'`. -/
def msgSair : String := "Saindo da mansao... Exploracao encerrada.\n"

/-- The line printed when `scanf` does not return `1`. -/
def msgErroLeitura : String := "Erro na leitura. Saindo...\n"

/-! ## Teardown and `main` -/

/-- The call `liberarMapa(sala)`: the rooms handed to `free`, in the order of the
calls. A room is named by the chain of child fields that leads to it from
`sala`, the empty chain naming `sala` itself. -/
def liberarMapa : Sala → List (List Lado)
  | Sala.NULL => []
  | Sala.node _ e d =>
    (liberarMapa e).map (fun p => Lado.esquerda :: p)
      ++ (liberarMapa d).map (fun p => Lado.direita :: p)
      ++ [[]]

/-- The pointer `sala->c1->...->ck` for the chain `c1, ..., ck` of child fields. -/
def subarvore : Sala → List Lado → Sala
  | s, [] => s
  | s, Lado.esquerda :: p => subarvore s.esquerda p
  | s, Lado.direita :: p => subarvore s.direita p

/-- Number of rooms of a map. -/
def tamanho : Sala → Nat
  | Sala.NULL => 0
  | Sala.node _ e d => tamanho e + tamanho d + 1

/-- Number of levels of a map: `0` for `NULL`, `1` for a room without
children. -/
def niveis : Sala → Nat
  | Sala.NULL => 0
  | Sala.node _ e d => max (niveis e) (niveis d) + 1

/-- Height of a map: the number of links on its longest chain from the root
down. -/
def altura (s : Sala) : Nat := niveis s - 1

/-- State of a run of `main`: the state of its call of `explorarSalas`, one
entry per call of `liberarMapa` made so far (the rooms that call freed) and the
value returned, if `main` has returned. -/
structure EstadoMain where
  exploracao : Estado
  liberacoes : List (List (List Lado))
  retorno : Option Int
  deriving DecidableEq, Repr

/-- The program `main` on the input `entrada`, its call of `explorarSalas` being
run for `n` steps: the map is built, `explorarSalas(hallEntrada)` is called, and
once that call has returned `liberarMapa(hallEntrada)` is called and `main`
returns `0`. -/
def main (n : Nat) (entrada : Stdin) : EstadoMain :=
  let hallEntrada := mapaMain
  let exploracao := explorarSalas n hallEntrada entrada
  match exploracao.ponto with
  | Ponto.fim _ =>
    { exploracao := exploracao, liberacoes := [liberarMapa hallEntrada], retorno := some 0 }
  | _ => { exploracao := exploracao, liberacoes := [], retorno := none }

/-- The field `sala->nome` (the empty string for `NULL`, which has no fields). -/
def Sala.nome : Sala → String
  | Sala.NULL => ""
  | Sala.node n _ _ => n

/-- The line printed when the root is `NULL`. -/
def msgMapaVazio : String := "O mapa da mansao esta vazio.\n"

/-- The call `strncpy(dest, src, n)` for a source string `src` (its characters
before the terminator): the `n` bytes stored in `dest`, which are the first
characters of `src` followed by NUL bytes when `src` is shorter than `n`. -/
def strncpy (src : List Char) (n : Nat) : List Char :=
  src.take n ++ List.replicate (n - src.length) '\x00'

/-- The array `novaSala->nome` of `MAX_NOME` bytes once `criarSala` has run
`strncpy(novaSala->nome, nome, MAX_NOME - 1)` and stored the terminator at index
`MAX_NOME - 1`. -/
def nomeGravado (nome : List Char) : List Char :=
  strncpy nome (MAX_NOME - 1) ++ ['\x00']

/-- The string held by a byte array: the characters before the first NUL byte,
or `none` when the array has no NUL byte (it is not terminated). -/
def lerString (bytes : List Char) : Option (List Char) :=
  if '\x00' ∈ bytes then some (bytes.takeWhile fun c => c != '\x00') else none

/-- The character typed to choose a side: `e` for the left, `d` for the right. -/
def marcador : Lado → Char
  | Lado.esquerda => 'e'
  | Lado.direita => 'd'

/-- The input made of the given choices, each written as the white space typed
before it followed by its marker. -/
def entradaTokens (ts : List (Stdin × Lado)) : Stdin :=
  ts.flatMap fun t => t.1 ++ [marcador t.2]

/-- A choice character that is one of the three markers, in either case. -/
def tokenReconhecido (c : Char) : Bool :=
  tolower c == 'e' || tolower c == 'd' || tolower c == 's'

/-- The given characters typed one per line. -/
def linhasSeparadas (cs : List Char) : Stdin :=
  cs.flatMap fun c => [c, '\n']

/-- Two states show the same behaviour: the same program point, the same current
room and the same output. -/
def mesmoVisivel (s1 s2 : Estado) : Prop :=
  s1.ponto = s2.ponto ∧ s1.atual = s2.atual ∧ s1.stdout = s2.stdout

/-- Whether the step taken from `st` is a successful move, that is, changes the
current room. -/
def moveu (st : Estado) : Bool :=
  decide ((passo st).atual ≠ st.atual)

/-- Number of successful moves among the first `n` steps from `st`. -/
def movimentos : Nat → Estado → Nat
  | 0, _ => 0
  | n + 1, st => (if moveu st then 1 else 0) + movimentos n (passo st)

/-! ## The exploration loop with the rooms kept in memory -/

/-- State of a run of `explorarSalas` together with the memory holding the rooms:
`mapa` is the tree of rooms stored under the root given to the call, and the
pointer `atual` is the chain of child fields that leads from that root to the room
it points to (a chain that reaches no room is the pointer `NULL`). A store into a
field of a room would change `mapa`, as `atribuir` does in `main`. -/
structure EstadoMapa where
  mapa : Sala
  ponto : Ponto
  atual : List Lado
  stdin : Stdin
  stdout : List String
  deriving DecidableEq, Repr

/-- One step of `explorarSalas` on the state with memory: as `passo`, with the
fields `atual->nome`, `atual->esquerda` and `atual->direita` read from the memory
and the assignments `atual = atual->esquerda` and `atual = atual->direita` made on
the pointer. -/
def passoMapa (st : EstadoMapa) : EstadoMapa :=
  match st.ponto with
  | Ponto.fim _ => st
  | Ponto.limpando =>
    match getchar st.stdin with
    | (some c, resto) =>
      if c = '\n' then { st with ponto := Ponto.laco, stdin := resto }
      else { st with stdin := resto }
    | (none, resto) => { st with stdin := resto }
  | Ponto.laco =>
    match subarvore st.mapa st.atual with
    | Sala.NULL => { st with ponto := Ponto.fim Termino.condicaoFalsa }
    | Sala.node nome esquerda direita =>
      let out := st.stdout ++ [anuncio nome]
      if esquerda = Sala.NULL ∧ direita = Sala.NULL then
        { st with
          ponto := Ponto.fim Termino.folha
          stdout :=
            out ++ ["\nEste comodo nao tem mais caminhos a explorar. Fim da jornada!\n"] }
      else
        let out := out ++ opcoes esquerda direita
        match scanfChar st.stdin with
        | (none, resto) =>
          { st with
            ponto := Ponto.fim Termino.erroLeitura
            stdin := resto
            stdout := out ++ ["Erro na leitura. Saindo...\n"] }
        | (some c, resto) =>
          let escolha := tolower c
          if escolha = 'e' then
            if esquerda ≠ Sala.NULL then
              { st with
                atual := st.atual ++ [Lado.esquerda]
                stdin := resto
                stdout := out ++ ["-> Seguindo para a Esquerda.\n"] }
            else
              { st with
                stdin := resto
                stdout := out ++ ["Caminho a esquerda nao existe. Escolha novamente.\n"] }
          else if escolha = 'd' then
            if direita ≠ Sala.NULL then
              { st with
                atual := st.atual ++ [Lado.direita]
                stdin := resto
                stdout := out ++ ["-> Seguindo para a Direita.\n"] }
            else
              { st with
                stdin := resto
                stdout := out ++ ["Caminho a direita nao existe. Escolha novamente.\n"] }
          else if escolha = 's' then
            { st with
              ponto := Ponto.fim Termino.sair
              stdin := resto
              stdout := out ++ ["Saindo da mansao... Exploracao encerrada.\n"] }
          else
            { st with
              ponto := Ponto.limpando
              stdin := resto
              stdout := out ++ ["Opcao invalida. Digite 'e', 'd' ou 's'.\n"] }

/-- The state with memory reached after `n` steps. -/
def executarMapa : Nat → EstadoMapa → EstadoMapa
  | 0, st => st
  | n + 1, st => executarMapa n (passoMapa st)

/-- Entry of `explorarSalas(atual)` with the tree `raiz` in memory and `atual`
pointing to its root. -/
def entrarMapa (raiz : Sala) (entrada : Stdin) : EstadoMapa :=
  match raiz with
  | Sala.NULL =>
    { mapa := Sala.NULL, ponto := Ponto.fim Termino.mapaVazio, atual := [], stdin := entrada,
      stdout := ["O mapa da mansao esta vazio.\n"] }
  | Sala.node nome esquerda direita =>
    { mapa := Sala.node nome esquerda direita, ponto := Ponto.laco, atual := [],
      stdin := entrada, stdout := ["\n--- Exploracao da Mansao - Detective Quest ---\n"] }

/-- The state with memory of the call `explorarSalas(atual)` after `n` steps, the
tree `raiz` being in memory and `atual` pointing to its root at the call. -/
def explorarSalasMapa (n : Nat) (raiz : Sala) (entrada : Stdin) : EstadoMapa :=
  executarMapa n (entrarMapa raiz entrada)

/-- The state without memory that a state with memory stands for: the pointer
`atual` is replaced by the room it points to. -/
def projetar (st : EstadoMapa) : Estado :=
  { ponto := st.ponto, atual := subarvore st.mapa st.atual, stdin := st.stdin,
    stdout := st.stdout }

/-! ## Basic facts about the step function -/

theorem executar_add (a b : Nat) (st : Estado) :
    executar (a + b) st = executar b (executar a st) := by
  induction a generalizing st with
  | zero => simp [executar]
  | succ a ih => rw [Nat.succ_add]; simp [executar, ih]

theorem passo_fim (t : Termino) (a : Sala) (i : Stdin) (o : List String) :
    passo ⟨Ponto.fim t, a, i, o⟩ = ⟨Ponto.fim t, a, i, o⟩ := by
  simp [passo]

theorem executar_fim (n : Nat) (t : Termino) (a : Sala) (i : Stdin) (o : List String) :
    executar n ⟨Ponto.fim t, a, i, o⟩ = ⟨Ponto.fim t, a, i, o⟩ := by
  induction n with
  | zero => rfl
  | succ n ih => simp [executar, passo_fim, ih]

theorem passo_limpando_eof (a : Sala) (o : List String) :
    passo ⟨Ponto.limpando, a, [], o⟩ = ⟨Ponto.limpando, a, [], o⟩ := by
  simp [passo, getchar]

theorem executar_limpando_eof (n : Nat) (a : Sala) (o : List String) :
    executar n ⟨Ponto.limpando, a, [], o⟩ = ⟨Ponto.limpando, a, [], o⟩ := by
  induction n with
  | zero => rfl
  | succ n ih => simp [executar, passo_limpando_eof, ih]

theorem scanfChar_cons (c : Char) (resto : Stdin) (h : isspace c = false) :
    scanfChar (c :: resto) = (some c, resto) := by
  simp [scanfChar, pularEspacos, h]

theorem scanfChar_espacos (entrada : Stdin) (h : ∀ c ∈ entrada, isspace c = true) :
    scanfChar entrada = (none, []) := by
  induction entrada with
  | nil => simp [scanfChar, pularEspacos]
  | cons c resto ih =>
    have hc : isspace c = true := h c (List.mem_cons_self _ _)
    have hr : ∀ x ∈ resto, isspace x = true := fun x hx => h x (List.mem_cons_of_mem _ hx)
    have := ih hr
    simp only [scanfChar, pularEspacos, hc, if_true] at this ⊢
    exact this

/-- What a pass through the loop body does at a room with a child, by cases on
the character stored by `scanf`. -/
theorem passo_laco (nome : String) (esq dir : Sala) (entrada : Stdin) (out : List String)
    (hnf : ¬ (esq = Sala.NULL ∧ dir = Sala.NULL)) :
    passo ⟨Ponto.laco, Sala.node nome esq dir, entrada, out⟩ =
      match scanfChar entrada with
      | (none, resto) =>
        ⟨Ponto.fim Termino.erroLeitura, Sala.node nome esq dir, resto,
          out ++ [anuncio nome] ++ opcoes esq dir ++ ["Erro na leitura. Saindo...\n"]⟩
      | (some c, resto) =>
        if tolower c = 'e' then
          if esq ≠ Sala.NULL then
            ⟨Ponto.laco, esq, resto,
              out ++ [anuncio nome] ++ opcoes esq dir ++ ["-> Seguindo para a Esquerda.\n"]⟩
          else
            ⟨Ponto.laco, Sala.node nome esq dir, resto,
              out ++ [anuncio nome] ++ opcoes esq dir
                ++ ["Caminho a esquerda nao existe. Escolha novamente.\n"]⟩
        else if tolower c = 'd' then
          if dir ≠ Sala.NULL then
            ⟨Ponto.laco, dir, resto,
              out ++ [anuncio nome] ++ opcoes esq dir ++ ["-> Seguindo para a Direita.\n"]⟩
          else
            ⟨Ponto.laco, Sala.node nome esq dir, resto,
              out ++ [anuncio nome] ++ opcoes esq dir
                ++ ["Caminho a direita nao existe. Escolha novamente.\n"]⟩
        else if tolower c = 's' then
          ⟨Ponto.fim Termino.sair, Sala.node nome esq dir, resto,
            out ++ [anuncio nome] ++ opcoes esq dir
              ++ ["Saindo da mansao... Exploracao encerrada.\n"]⟩
        else
          ⟨Ponto.limpando, Sala.node nome esq dir, resto,
            out ++ [anuncio nome] ++ opcoes esq dir ++ [msgInvalida]⟩ := by
  simp only [passo, hnf, if_false, msgInvalida]

theorem anuncio_head (nome : String) : (anuncio nome).data.head? = some '\n' := by
  simp [anuncio, String.data_append]

theorem anuncio_ne (nome s : String) (h : s.data.head? ≠ some '\n') : anuncio nome ≠ s := by
  intro he
  exact h (he ▸ anuncio_head nome)

/-- At a room with a child, a pass through the loop body prints the room, the
prompt and exactly one more line. -/
theorem passo_laco_stdout (nome : String) (esq dir : Sala) (entrada : Stdin)
    (out : List String) (hnf : ¬ (esq = Sala.NULL ∧ dir = Sala.NULL)) :
    ∃ msg, (passo ⟨Ponto.laco, Sala.node nome esq dir, entrada, out⟩).stdout =
      out ++ [anuncio nome] ++ opcoes esq dir ++ [msg] := by
  rw [passo_laco nome esq dir entrada out hnf]
  rcases scanfChar entrada with ⟨_ | c, resto⟩
  · exact ⟨_, rfl⟩
  · dsimp only
    split_ifs <;> exact ⟨_, rfl⟩

theorem mapaMain_node :
    mapaMain = Sala.node "Hall de entrada" mapaMain.esquerda mapaMain.direita := by
  decide

theorem mem_opcoes (esq dir : Sala) (s : String) (h : s ∈ opcoes esq dir) :
    s = "Escolha seu proximo caminho: " ∨ s = "[" ∨ s = "e (Esquerda) " ∨
      s = "d (Direita) " ∨ s = "s (Sair)]: " := by
  unfold opcoes at h
  split_ifs at h <;> simp at h <;> tauto

theorem entrar_node (nome : String) (esq dir : Sala) (entrada : Stdin) :
    entrar (Sala.node nome esq dir) entrada =
      ⟨Ponto.laco, Sala.node nome esq dir, entrada, [msgTitulo]⟩ := rfl

/-- A pass through the loop body at a room without children. -/
theorem passo_folha (nome : String) (entrada : Stdin) (out : List String) :
    passo ⟨Ponto.laco, Sala.node nome Sala.NULL Sala.NULL, entrada, out⟩ =
      ⟨Ponto.fim Termino.folha, Sala.node nome Sala.NULL Sala.NULL, entrada,
        out ++ [anuncio nome, msgFolha]⟩ := by
  simp [passo, msgFolha]

theorem scanfChar_brancos (brancos : Stdin) (c : Char) (resto : Stdin)
    (hb : ∀ b ∈ brancos, isspace b = true) (hc : isspace c = false) :
    scanfChar (brancos ++ c :: resto) = (some c, resto) := by
  induction brancos with
  | nil => exact scanfChar_cons c resto hc
  | cons b bs ih =>
    have hb1 : isspace b = true := hb b (List.mem_cons_self _ _)
    have hbs : ∀ x ∈ bs, isspace x = true := fun x hx => hb x (List.mem_cons_of_mem _ hx)
    have := ih hbs
    simp only [scanfChar, List.cons_append, pularEspacos, hb1, if_true] at this ⊢
    exact this

theorem passo_comSaida (pre : List String) (st : Estado) :
    passo (comSaida pre st) = comSaida pre (passo st) := by
  rcases st with ⟨p, a, i, o⟩
  cases p with
  | fim t => simp [passo, comSaida]
  | limpando =>
    cases i with
    | nil => simp [passo, comSaida, getchar]
    | cons c r =>
      by_cases hc : c = '\n' <;> simp [passo, comSaida, getchar, hc]
  | laco =>
    cases a with
    | NULL => simp [passo, comSaida]
    | node nome esq dir =>
      by_cases hnf : esq = Sala.NULL ∧ dir = Sala.NULL
      · simp [passo, comSaida, hnf]
      · simp only [comSaida]
        rw [passo_laco nome esq dir i o hnf, passo_laco nome esq dir i (pre ++ o) hnf]
        rcases scanfChar i with ⟨_ | c, resto⟩
        · simp
        · dsimp only
          split_ifs <;> simp

theorem executar_comSaida (n : Nat) (pre : List String) (st : Estado) :
    executar n (comSaida pre st) = comSaida pre (executar n st) := by
  induction n generalizing st with
  | zero => rfl
  | succ n ih => simp only [executar, passo_comSaida, ih]

theorem limpando_parcial (a : Sala) (corpo seg : Stdin) (out : List String)
    (hc : '\n' ∉ corpo) (j : Nat) (hj : j ≤ corpo.length) :
    executar j ⟨Ponto.limpando, a, corpo ++ '\n' :: seg, out⟩ =
      ⟨Ponto.limpando, a, corpo.drop j ++ '\n' :: seg, out⟩ := by
  induction j generalizing corpo with
  | zero => simp [executar]
  | succ j ih =>
    cases corpo with
    | nil => simp at hj
    | cons x xs =>
      have hx : x ≠ '\n' := fun h => hc (h ▸ List.mem_cons_self _ _)
      have hxs : '\n' ∉ xs := fun h => hc (List.mem_cons_of_mem _ h)
      have hstep : passo ⟨Ponto.limpando, a, (x :: xs) ++ '\n' :: seg, out⟩ =
          ⟨Ponto.limpando, a, xs ++ '\n' :: seg, out⟩ := by
        simp [passo, getchar, hx]
      simp only [executar, hstep, List.drop_succ_cons]
      exact ih xs hxs (by simpa using hj)

theorem limpar_linha (a : Sala) (corpo seg : Stdin) (out : List String)
    (hc : '\n' ∉ corpo) :
    executar (corpo.length + 1) ⟨Ponto.limpando, a, corpo ++ '\n' :: seg, out⟩ =
      ⟨Ponto.laco, a, seg, out⟩ := by
  rw [executar_add, limpando_parcial a corpo seg out hc corpo.length (le_refl _)]
  simp [executar, passo, getchar]

theorem passo_invalido (nome : String) (esq dir : Sala) (entrada resto : Stdin) (c : Char)
    (out : List String) (hnf : ¬ (esq = Sala.NULL ∧ dir = Sala.NULL))
    (hread : scanfChar entrada = (some c, resto)) (hc : tokenInvalido c = true) :
    passo ⟨Ponto.laco, Sala.node nome esq dir, entrada, out⟩ =
      ⟨Ponto.limpando, Sala.node nome esq dir, resto,
        out ++ [anuncio nome] ++ opcoes esq dir ++ [msgInvalida]⟩ := by
  simp only [tokenInvalido, Bool.and_eq_true, Bool.not_eq_true', bne_iff_ne, ne_eq] at hc
  obtain ⟨⟨⟨_, he⟩, hd⟩, hs⟩ := hc
  rw [passo_laco nome esq dir entrada out hnf, hread]
  simp [he, hd, hs]

theorem linha_invalida (nome : String) (esq dir : Sala) (c : Char) (corpo seg : Stdin)
    (out : List String) (hnf : ¬ (esq = Sala.NULL ∧ dir = Sala.NULL))
    (hc : tokenInvalido c = true) (hcorpo : '\n' ∉ corpo) :
    executar (corpo.length + 2) ⟨Ponto.laco, Sala.node nome esq dir,
        c :: corpo ++ '\n' :: seg, out⟩ =
      ⟨Ponto.laco, Sala.node nome esq dir, seg,
        out ++ [anuncio nome] ++ opcoes esq dir ++ [msgInvalida]⟩ := by
  have hsp : isspace c = false := by
    simp only [tokenInvalido, Bool.and_eq_true, Bool.not_eq_true'] at hc
    exact hc.1.1.1
  have hread : scanfChar (c :: corpo ++ '\n' :: seg) = (some c, corpo ++ '\n' :: seg) := by
    rw [List.cons_append]; exact scanfChar_cons c _ hsp
  have h1 := passo_invalido nome esq dir _ _ c out hnf hread hc
  have : corpo.length + 2 = (corpo.length + 1) + 1 := rfl
  rw [this]
  simp only [executar]
  rw [h1]
  exact limpar_linha _ corpo seg _ hcorpo

/-! ## The exploration loop: claims -/

/-- Claim C1, which the code does not meet: on the map built by `main`, with the
input consisting of the single character `1` and then end of input, the run of
`explorarSalas` never returns. After the first step it sits in the loop
`while (getchar() != '\n');` for ever, `getchar` reporting end of input each
time. -/
theorem explorarSalas_nao_retorna_sem_fim_de_linha :
    ∀ n : Nat,
      (∀ t : Termino, (explorarSalas n mapaMain ['1']).ponto ≠ Ponto.fim t) ∧
      (explorarSalas (n + 1) mapaMain ['1']).ponto = Ponto.limpando ∧
      (explorarSalas (n + 1) mapaMain ['1']).stdin = [] := by
  have h1 : passo (entrar mapaMain ['1']) =
      ⟨Ponto.limpando, mapaMain, [],
        [msgTitulo, anuncio "Hall de entrada"] ++ opcoes mapaMain.esquerda mapaMain.direita
          ++ [msgInvalida]⟩ := by decide
  have h2 : ∀ n, explorarSalas (n + 1) mapaMain ['1'] =
      ⟨Ponto.limpando, mapaMain, [],
        [msgTitulo, anuncio "Hall de entrada"] ++ opcoes mapaMain.esquerda mapaMain.direita
          ++ [msgInvalida]⟩ := by
    intro n
    simp only [explorarSalas, executar, h1, executar_limpando_eof]
  intro n
  refine ⟨?_, by rw [h2], by rw [h2]⟩
  intro t
  cases n with
  | zero =>
    have h0 : (explorarSalas 0 mapaMain ['1']).ponto = Ponto.laco := by decide
    rw [h0]; simp
  | succ n => rw [h2]; simp

/-- Claim C2: at a room where the character stored by `scanf` is the left marker
(`e` after `tolower`) and `esquerda` is not `NULL`, one pass through the loop body
leaves the run at the loop head with `atual` equal to that left child; and the same
for the right marker `d` and `direita`. -/
theorem explorarSalas_segue_para_filho (nome : String) (esq dir : Sala)
    (entrada resto : Stdin) (c : Char) (out : List String)
    (hread : scanfChar entrada = (some c, resto)) :
    (tolower c = 'e' → esq ≠ Sala.NULL →
      passo ⟨Ponto.laco, Sala.node nome esq dir, entrada, out⟩ =
        ⟨Ponto.laco, esq, resto,
          out ++ [anuncio nome] ++ opcoes esq dir ++ ["-> Seguindo para a Esquerda.\n"]⟩) ∧
    (tolower c = 'd' → dir ≠ Sala.NULL →
      passo ⟨Ponto.laco, Sala.node nome esq dir, entrada, out⟩ =
        ⟨Ponto.laco, dir, resto,
          out ++ [anuncio nome] ++ opcoes esq dir ++ ["-> Seguindo para a Direita.\n"]⟩) := by
  constructor
  · intro hc he
    have hnf : ¬ (esq = Sala.NULL ∧ dir = Sala.NULL) := fun h => he h.1
    rw [passo_laco nome esq dir entrada out hnf, hread]
    simp [hc, he]
  · intro hc hd
    have hnf : ¬ (esq = Sala.NULL ∧ dir = Sala.NULL) := fun h => hd h.2
    rw [passo_laco nome esq dir entrada out hnf, hread]
    simp [hc, hd]

theorem explorarSalas_segue_para_filho_witness :
    passo ⟨Ponto.laco, Sala.node "Hall de entrada" mapaMain.esquerda mapaMain.direita,
        [' ', 'E', '\n'], [msgTitulo]⟩ =
      ⟨Ponto.laco, mapaMain.esquerda, ['\n'],
        [msgTitulo] ++ [anuncio "Hall de entrada"]
          ++ opcoes mapaMain.esquerda mapaMain.direita
          ++ ["-> Seguindo para a Esquerda.\n"]⟩ :=
  (explorarSalas_segue_para_filho "Hall de entrada" mapaMain.esquerda mapaMain.direita
    [' ', 'E', '\n'] ['\n'] 'E' [msgTitulo] (by decide)).1 (by decide) (by decide)

/-- Claim C3: at a room with a child, choosing the side whose child is `NULL`
keeps `atual` as it is: the pass prints the line saying the path does not exist
and returns to the loop head at the same room, where the next pass prints the
room and the prompt again. On the map of `main`, the input `d`, `e`, `d` (one per
line) goes to "Biblioteca", stays there on `e` with that line printed, then moves
to "Quarto Principal", where the run ends at a room without children. -/
theorem explorarSalas_caminho_inexistente :
    (∀ (nome : String) (esq dir : Sala) (entrada resto : Stdin) (c : Char)
        (out : List String),
      scanfChar entrada = (some c, resto) →
      ((tolower c = 'e' → esq = Sala.NULL → dir ≠ Sala.NULL →
          passo ⟨Ponto.laco, Sala.node nome esq dir, entrada, out⟩ =
            ⟨Ponto.laco, Sala.node nome esq dir, resto,
              out ++ [anuncio nome] ++ opcoes esq dir
                ++ ["Caminho a esquerda nao existe. Escolha novamente.\n"]⟩ ∧
          ∃ msg, (executar 2 ⟨Ponto.laco, Sala.node nome esq dir, entrada, out⟩).stdout =
            out ++ [anuncio nome] ++ opcoes esq dir
              ++ ["Caminho a esquerda nao existe. Escolha novamente.\n"]
              ++ [anuncio nome] ++ opcoes esq dir ++ [msg]) ∧
       (tolower c = 'd' → dir = Sala.NULL → esq ≠ Sala.NULL →
          passo ⟨Ponto.laco, Sala.node nome esq dir, entrada, out⟩ =
            ⟨Ponto.laco, Sala.node nome esq dir, resto,
              out ++ [anuncio nome] ++ opcoes esq dir
                ++ ["Caminho a direita nao existe. Escolha novamente.\n"]⟩ ∧
          ∃ msg, (executar 2 ⟨Ponto.laco, Sala.node nome esq dir, entrada, out⟩).stdout =
            out ++ [anuncio nome] ++ opcoes esq dir
              ++ ["Caminho a direita nao existe. Escolha novamente.\n"]
              ++ [anuncio nome] ++ opcoes esq dir ++ [msg]))) ∧
    (mapaMain.direita =
        Sala.node "Biblioteca" Sala.NULL (Sala.node "Quarto Principal" Sala.NULL Sala.NULL) ∧
     explorarSalas 1 mapaMain ['d', '\n', 'e', '\n', 'd', '\n'] =
        ⟨Ponto.laco, mapaMain.direita, ['\n', 'e', '\n', 'd', '\n'],
          [msgTitulo, anuncio "Hall de entrada", "Escolha seu proximo caminho: ", "[",
            "e (Esquerda) ", "d (Direita) ", "s (Sair)]: ",
            "-> Seguindo para a Direita.\n"]⟩ ∧
     explorarSalas 2 mapaMain ['d', '\n', 'e', '\n', 'd', '\n'] =
        ⟨Ponto.laco, mapaMain.direita, ['\n', 'd', '\n'],
          [msgTitulo, anuncio "Hall de entrada", "Escolha seu proximo caminho: ", "[",
            "e (Esquerda) ", "d (Direita) ", "s (Sair)]: ",
            "-> Seguindo para a Direita.\n",
            anuncio "Biblioteca", "Escolha seu proximo caminho: ", "[",
            "d (Direita) ", "s (Sair)]: ",
            "Caminho a esquerda nao existe. Escolha novamente.\n"]⟩ ∧
     ∀ n, explorarSalas (n + 4) mapaMain ['d', '\n', 'e', '\n', 'd', '\n'] =
        ⟨Ponto.fim Termino.folha, Sala.node "Quarto Principal" Sala.NULL Sala.NULL, ['\n'],
          [msgTitulo, anuncio "Hall de entrada", "Escolha seu proximo caminho: ", "[",
            "e (Esquerda) ", "d (Direita) ", "s (Sair)]: ",
            "-> Seguindo para a Direita.\n",
            anuncio "Biblioteca", "Escolha seu proximo caminho: ", "[",
            "d (Direita) ", "s (Sair)]: ",
            "Caminho a esquerda nao existe. Escolha novamente.\n",
            anuncio "Biblioteca", "Escolha seu proximo caminho: ", "[",
            "d (Direita) ", "s (Sair)]: ",
            "-> Seguindo para a Direita.\n",
            anuncio "Quarto Principal", msgFolha]⟩) := by
  refine ⟨?_, by decide, by decide, by decide, ?_⟩
  · intro nome esq dir entrada resto c out hread
    constructor
    · intro hc he hd
      have hnf : ¬ (esq = Sala.NULL ∧ dir = Sala.NULL) := fun h => hd h.2
      have h1 : passo ⟨Ponto.laco, Sala.node nome esq dir, entrada, out⟩ =
          ⟨Ponto.laco, Sala.node nome esq dir, resto,
            out ++ [anuncio nome] ++ opcoes esq dir
              ++ ["Caminho a esquerda nao existe. Escolha novamente.\n"]⟩ := by
        rw [passo_laco nome esq dir entrada out hnf, hread]
        simp [hc, he]
      refine ⟨h1, ?_⟩
      obtain ⟨msg, hmsg⟩ := passo_laco_stdout nome esq dir resto
        (out ++ [anuncio nome] ++ opcoes esq dir
          ++ ["Caminho a esquerda nao existe. Escolha novamente.\n"]) hnf
      exact ⟨msg, by simp only [executar, h1, hmsg]⟩
    · intro hc hd he
      have hnf : ¬ (esq = Sala.NULL ∧ dir = Sala.NULL) := fun h => he h.1
      have h1 : passo ⟨Ponto.laco, Sala.node nome esq dir, entrada, out⟩ =
          ⟨Ponto.laco, Sala.node nome esq dir, resto,
            out ++ [anuncio nome] ++ opcoes esq dir
              ++ ["Caminho a direita nao existe. Escolha novamente.\n"]⟩ := by
        rw [passo_laco nome esq dir entrada out hnf, hread]
        simp [hc, hd]
      refine ⟨h1, ?_⟩
      obtain ⟨msg, hmsg⟩ := passo_laco_stdout nome esq dir resto
        (out ++ [anuncio nome] ++ opcoes esq dir
          ++ ["Caminho a direita nao existe. Escolha novamente.\n"]) hnf
      exact ⟨msg, by simp only [executar, h1, hmsg]⟩
  · intro n
    have h4 : explorarSalas 4 mapaMain ['d', '\n', 'e', '\n', 'd', '\n'] =
        ⟨Ponto.fim Termino.folha, Sala.node "Quarto Principal" Sala.NULL Sala.NULL, ['\n'],
          [msgTitulo, anuncio "Hall de entrada", "Escolha seu proximo caminho: ", "[",
            "e (Esquerda) ", "d (Direita) ", "s (Sair)]: ",
            "-> Seguindo para a Direita.\n",
            anuncio "Biblioteca", "Escolha seu proximo caminho: ", "[",
            "d (Direita) ", "s (Sair)]: ",
            "Caminho a esquerda nao existe. Escolha novamente.\n",
            anuncio "Biblioteca", "Escolha seu proximo caminho: ", "[",
            "d (Direita) ", "s (Sair)]: ",
            "-> Seguindo para a Direita.\n",
            anuncio "Quarto Principal", msgFolha]⟩ := by decide
    have hadd : explorarSalas (n + 4) mapaMain ['d', '\n', 'e', '\n', 'd', '\n'] =
        executar n (explorarSalas 4 mapaMain ['d', '\n', 'e', '\n', 'd', '\n']) := by
      unfold explorarSalas
      rw [Nat.add_comm, executar_add]
    rw [hadd, h4, executar_fim]

theorem explorarSalas_caminho_inexistente_witness :
    passo ⟨Ponto.laco, Sala.node "Biblioteca" Sala.NULL
        (Sala.node "Quarto Principal" Sala.NULL Sala.NULL), ['e', '\n', 'd', '\n'], []⟩ =
      ⟨Ponto.laco, Sala.node "Biblioteca" Sala.NULL
        (Sala.node "Quarto Principal" Sala.NULL Sala.NULL), ['\n', 'd', '\n'],
        [] ++ [anuncio "Biblioteca"]
          ++ opcoes Sala.NULL (Sala.node "Quarto Principal" Sala.NULL Sala.NULL)
          ++ ["Caminho a esquerda nao existe. Escolha novamente.\n"]⟩ :=
  ((explorarSalas_caminho_inexistente.1 "Biblioteca" Sala.NULL
    (Sala.node "Quarto Principal" Sala.NULL Sala.NULL) ['e', '\n', 'd', '\n']
    ['\n', 'd', '\n'] 'e' [] (by decide)).1 (by decide) rfl (by decide)).1

/-- Claim C4: at a room whose two child pointers are `NULL`, the pass through the
loop body prints the room name and the end-of-journey line and the run is over, at
the `break` of the leaf test, for good; the input is left untouched, and none of
the strings of a prompt is among the two lines printed. The same holds when that
room is the root given to `explorarSalas`. The line showing the room is the text
of the `printf` with the name of the room in the place of `%s`, so the characters
of the name are in the output, and the line after it is the end-of-journey
message, letter for letter. -/
theorem explorarSalas_folha_encerra (nome : String) (entrada : Stdin) (out : List String) :
    (∀ n, executar (n + 1) ⟨Ponto.laco, Sala.node nome Sala.NULL Sala.NULL, entrada, out⟩ =
      ⟨Ponto.fim Termino.folha, Sala.node nome Sala.NULL Sala.NULL, entrada,
        out ++ [anuncio nome, msgFolha]⟩) ∧
    (∀ n, explorarSalas (n + 1) (Sala.node nome Sala.NULL Sala.NULL) entrada =
      ⟨Ponto.fim Termino.folha, Sala.node nome Sala.NULL Sala.NULL, entrada,
        [msgTitulo, anuncio nome, msgFolha]⟩) ∧
    (∀ (e d : Sala) (s : String), s ∈ opcoes e d → s ∉ [anuncio nome, msgFolha]) ∧
    (∀ n,
      (executar (n + 1)
          ⟨Ponto.laco, Sala.node nome Sala.NULL Sala.NULL, entrada, out⟩).stdout =
        out ++ ["\nVoce esta no(a) **" ++ nome ++ "**.\n",
          "\nEste comodo nao tem mais caminhos a explorar. Fim da jornada!\n"]) ∧
    (anuncio nome).data = "\nVoce esta no(a) **".data ++ nome.data ++ "**.\n".data := by
  have h1 : ∀ (n : Nat) (o : List String),
      executar (n + 1) ⟨Ponto.laco, Sala.node nome Sala.NULL Sala.NULL, entrada, o⟩ =
        ⟨Ponto.fim Termino.folha, Sala.node nome Sala.NULL Sala.NULL, entrada,
          o ++ [anuncio nome, msgFolha]⟩ := by
    intro n o
    simp only [executar, passo_folha, executar_fim]
  refine ⟨fun n => h1 n out, ?_, ?_, ?_, ?_⟩
  · intro n
    unfold explorarSalas
    rw [entrar_node, h1]
    rfl
  · intro e d s hs hmem
    have hs5 := mem_opcoes e d s hs
    have hne : anuncio nome ≠ s := by
      apply anuncio_ne
      rcases hs5 with h | h | h | h | h <;> subst h <;> decide
    have hfolha : s ≠ msgFolha := by
      rcases hs5 with h | h | h | h | h <;> subst h <;> decide
    simp only [List.mem_cons, List.mem_singleton, List.not_mem_nil, or_false] at hmem
    rcases hmem with h | h
    · exact hne h.symm
    · exact hfolha h
  · intro n
    rw [h1]
    rfl
  · simp only [anuncio, String.data_append, List.append_assoc]

theorem explorarSalas_folha_encerra_witness :
    executar (0 + 1) ⟨Ponto.laco, Sala.node "Despensa" Sala.NULL Sala.NULL, ['e', '\n'], []⟩ =
      ⟨Ponto.fim Termino.folha, Sala.node "Despensa" Sala.NULL Sala.NULL, ['e', '\n'],
        [] ++ [anuncio "Despensa", msgFolha]⟩ ∧
    "s (Sair)]: " ∉ [anuncio "Despensa", msgFolha] :=
  ⟨(explorarSalas_folha_encerra "Despensa" ['e', '\n'] []).1 0,
    (explorarSalas_folha_encerra "Despensa" ['e', '\n'] []).2.2.1 Sala.NULL Sala.NULL
      "s (Sair)]: " (by decide)⟩

/-- Claim C5: at a room with a child, the pass through the loop body prints the
room name, then the prompt `opcoes`, then one more line. In that prompt the left
option is present exactly when `esquerda` is not `NULL`, the right option exactly
when `direita` is not `NULL`, the exit option always, and nothing else is there
besides the opening text and bracket. -/
theorem explorarSalas_opcoes_oferecidas (nome : String) (esq dir : Sala)
    (entrada : Stdin) (out : List String) (hnf : ¬ (esq = Sala.NULL ∧ dir = Sala.NULL)) :
    (∃ msg, (passo ⟨Ponto.laco, Sala.node nome esq dir, entrada, out⟩).stdout =
      out ++ [anuncio nome] ++ opcoes esq dir ++ [msg]) ∧
    ("e (Esquerda) " ∈ opcoes esq dir ↔ esq ≠ Sala.NULL) ∧
    ("d (Direita) " ∈ opcoes esq dir ↔ dir ≠ Sala.NULL) ∧
    "s (Sair)]: " ∈ opcoes esq dir ∧
    (∀ s ∈ opcoes esq dir, s = "Escolha seu proximo caminho: " ∨ s = "[" ∨
      s = "e (Esquerda) " ∨ s = "d (Direita) " ∨ s = "s (Sair)]: ") := by
  refine ⟨passo_laco_stdout nome esq dir entrada out hnf, ?_, ?_, ?_, mem_opcoes esq dir⟩
  · unfold opcoes
    by_cases he : esq = Sala.NULL <;> by_cases hd : dir = Sala.NULL <;> simp [he, hd]
  · unfold opcoes
    by_cases he : esq = Sala.NULL <;> by_cases hd : dir = Sala.NULL <;> simp [he, hd]
  · unfold opcoes
    simp

theorem explorarSalas_opcoes_oferecidas_witness :
    (∃ msg, (passo ⟨Ponto.laco, Sala.node "Biblioteca" Sala.NULL
        (Sala.node "Quarto Principal" Sala.NULL Sala.NULL), ['d'], []⟩).stdout =
      [] ++ [anuncio "Biblioteca"]
        ++ opcoes Sala.NULL (Sala.node "Quarto Principal" Sala.NULL Sala.NULL) ++ [msg]) ∧
    opcoes Sala.NULL (Sala.node "Quarto Principal" Sala.NULL Sala.NULL) =
      ["Escolha seu proximo caminho: ", "[", "d (Direita) ", "s (Sair)]: "] :=
  ⟨(explorarSalas_opcoes_oferecidas "Biblioteca" Sala.NULL
      (Sala.node "Quarto Principal" Sala.NULL Sala.NULL) ['d'] [] (by decide)).1,
    by decide⟩

/-- Claim C6: at a room with a child, when the character stored by `scanf` is the
exit marker (`s` after `tolower`), the pass through the loop body prints the
farewell line and the run is over at the `return` of `case 's'`, for good, with
the same current room and the input after that character left unread. On the map
of `main`, an input starting with `s` ends the run there with the root still the
current room, whatever follows. -/
theorem explorarSalas_sair :
    (∀ (nome : String) (esq dir : Sala) (entrada resto : Stdin) (c : Char)
        (out : List String),
      ¬ (esq = Sala.NULL ∧ dir = Sala.NULL) →
      scanfChar entrada = (some c, resto) →
      tolower c = 's' →
      ∀ n, executar (n + 1) ⟨Ponto.laco, Sala.node nome esq dir, entrada, out⟩ =
        ⟨Ponto.fim Termino.sair, Sala.node nome esq dir, resto,
          out ++ [anuncio nome] ++ opcoes esq dir ++ [msgSair]⟩) ∧
    (∀ (n : Nat) (resto : Stdin), explorarSalas (n + 1) mapaMain ('s' :: resto) =
      ⟨Ponto.fim Termino.sair, mapaMain, resto,
        [msgTitulo, anuncio "Hall de entrada", "Escolha seu proximo caminho: ", "[",
          "e (Esquerda) ", "d (Direita) ", "s (Sair)]: ", msgSair]⟩) := by
  have hgen : ∀ (nome : String) (esq dir : Sala) (entrada resto : Stdin) (c : Char)
      (out : List String),
      ¬ (esq = Sala.NULL ∧ dir = Sala.NULL) →
      scanfChar entrada = (some c, resto) →
      tolower c = 's' →
      ∀ n, executar (n + 1) ⟨Ponto.laco, Sala.node nome esq dir, entrada, out⟩ =
        ⟨Ponto.fim Termino.sair, Sala.node nome esq dir, resto,
          out ++ [anuncio nome] ++ opcoes esq dir ++ [msgSair]⟩ := by
    intro nome esq dir entrada resto c out hnf hread hc n
    have h1 : passo ⟨Ponto.laco, Sala.node nome esq dir, entrada, out⟩ =
        ⟨Ponto.fim Termino.sair, Sala.node nome esq dir, resto,
          out ++ [anuncio nome] ++ opcoes esq dir ++ [msgSair]⟩ := by
      rw [passo_laco nome esq dir entrada out hnf, hread]
      simp [hc, msgSair]
    simp only [executar, h1, executar_fim]
  refine ⟨hgen, ?_⟩
  intro n resto
  have hs : scanfChar ('s' :: resto) = (some 's', resto) := scanfChar_cons 's' resto (by decide)
  have h := hgen "Hall de entrada" mapaMain.esquerda mapaMain.direita ('s' :: resto) resto 's'
    [msgTitulo] (by decide) hs (by decide) n
  unfold explorarSalas
  rw [mapaMain_node, entrar_node, h, ← mapaMain_node]
  have ho : opcoes mapaMain.esquerda mapaMain.direita =
      ["Escolha seu proximo caminho: ", "[", "e (Esquerda) ", "d (Direita) ", "s (Sair)]: "] := by
    decide
  rw [ho]
  rfl

theorem explorarSalas_sair_witness :
    executar (0 + 1) ⟨Ponto.laco, Sala.node "Biblioteca" Sala.NULL
        (Sala.node "Quarto Principal" Sala.NULL Sala.NULL), ['\n', 'S', 'e', 'd'], []⟩ =
      ⟨Ponto.fim Termino.sair, Sala.node "Biblioteca" Sala.NULL
        (Sala.node "Quarto Principal" Sala.NULL Sala.NULL), ['e', 'd'],
        [] ++ [anuncio "Biblioteca"]
          ++ opcoes Sala.NULL (Sala.node "Quarto Principal" Sala.NULL Sala.NULL)
          ++ [msgSair]⟩ :=
  explorarSalas_sair.1 "Biblioteca" Sala.NULL
    (Sala.node "Quarto Principal" Sala.NULL Sala.NULL) ['\n', 'S', 'e', 'd'] ['e', 'd'] 'S' []
    (by decide) (by decide) (by decide) 0

/-- Claim C7: at a room with a child, a run of lines each starting with a character
that is not white space and is none of the markers (and each ended by its line
feed) brings the run back to the loop head at the same room with exactly those
lines consumed; what it prints is, once per line, the room, the prompt and the
invalid-option report, so the number of reports equals the number of lines. -/
theorem explorarSalas_invalidos_repetidos (nome : String) (esq dir : Sala)
    (ls : List (Char × List Char)) (seguinte : Stdin) (out : List String)
    (hnf : ¬ (esq = Sala.NULL ∧ dir = Sala.NULL))
    (hls : ∀ l ∈ ls, tokenInvalido l.1 = true ∧ '\n' ∉ l.2) :
    (∃ k, executar k ⟨Ponto.laco, Sala.node nome esq dir, linhas ls ++ seguinte, out⟩ =
      ⟨Ponto.laco, Sala.node nome esq dir, seguinte,
        out ++ ls.flatMap fun _ => [anuncio nome] ++ opcoes esq dir ++ [msgInvalida]⟩) ∧
    List.count msgInvalida
      (ls.flatMap fun _ => [anuncio nome] ++ opcoes esq dir ++ [msgInvalida]) = ls.length := by
  constructor
  · induction ls generalizing out with
    | nil => exact ⟨0, by simp [executar, linhas]⟩
    | cons l ls ih =>
      have hl := hls l (List.mem_cons_self _ _)
      have hrest : ∀ x ∈ ls, tokenInvalido x.1 = true ∧ '\n' ∉ x.2 :=
        fun x hx => hls x (List.mem_cons_of_mem _ hx)
      obtain ⟨k, hk⟩ := ih (out ++ [anuncio nome] ++ opcoes esq dir ++ [msgInvalida]) hrest
      refine ⟨(l.2.length + 2) + k, ?_⟩
      have hin : linhas (l :: ls) ++ seguinte =
          l.1 :: l.2 ++ '\n' :: (linhas ls ++ seguinte) := by
        simp [linhas, List.flatMap_cons]
      rw [hin, executar_add,
        linha_invalida nome esq dir l.1 l.2 (linhas ls ++ seguinte) out hnf hl.1 hl.2, hk]
      simp [List.flatMap_cons]
  · have hbloco : List.count msgInvalida
        ([anuncio nome] ++ opcoes esq dir ++ [msgInvalida]) = 1 := by
      have h1 : anuncio nome ≠ msgInvalida := anuncio_ne nome msgInvalida (by decide)
      have h2 : List.count msgInvalida (opcoes esq dir) = 0 := by
        rw [List.count_eq_zero]
        intro hmem
        rcases mem_opcoes esq dir msgInvalida hmem with h | h | h | h | h <;>
          exact absurd h (by decide)
      rw [List.count_append, List.count_append, h2]
      simp [List.count_cons, h1]
    induction ls with
    | nil => simp
    | cons l ls ih =>
      have hrest : ∀ x ∈ ls, tokenInvalido x.1 = true ∧ '\n' ∉ x.2 :=
        fun x hx => hls x (List.mem_cons_of_mem _ hx)
      rw [List.flatMap_cons, List.count_append, hbloco, ih hrest, List.length_cons]
      omega

theorem explorarSalas_invalidos_repetidos_witness :
    (∃ k, executar k ⟨Ponto.laco, Sala.node "Biblioteca" Sala.NULL
        (Sala.node "Quarto Principal" Sala.NULL Sala.NULL),
        linhas [('1', []), ('x', ['e']), ('?', [' ', 'd'])] ++ ['d'], []⟩ =
      ⟨Ponto.laco, Sala.node "Biblioteca" Sala.NULL
        (Sala.node "Quarto Principal" Sala.NULL Sala.NULL), ['d'],
        [] ++ [('1', []), ('x', ['e']), ('?', [' ', 'd'])].flatMap fun _ =>
          [anuncio "Biblioteca"]
            ++ opcoes Sala.NULL (Sala.node "Quarto Principal" Sala.NULL Sala.NULL)
            ++ [msgInvalida]⟩) ∧
    List.count msgInvalida
      ([('1', []), ('x', ['e']), ('?', [' ', 'd'])].flatMap fun _ =>
        [anuncio "Biblioteca"]
          ++ opcoes Sala.NULL (Sala.node "Quarto Principal" Sala.NULL Sala.NULL)
          ++ [msgInvalida]) = [('1', []), ('x', ['e']), ('?', [' ', 'd'])].length :=
  explorarSalas_invalidos_repetidos "Biblioteca" Sala.NULL
    (Sala.node "Quarto Principal" Sala.NULL Sala.NULL)
    [('1', []), ('x', ['e']), ('?', [' ', 'd'])] ['d'] [] (by decide) (by decide)

/-- Claim C8: at a room with a child, when the character stored by `scanf` is not
white space and is none of the markers, the pass prints the invalid-option report
and the following steps are the line-discarding loop: each remaining character of
that line is consumed there, at the same room, up to and including the line feed.
The run is then back at the loop head at the same room with the input that follows
the line, and from there on it goes, step for step, as the run started at that
room on that following input, the only difference being the lines already printed.
On the map of `main` the input line `1e` leaves the run at the root: the `e` is
discarded and the next read finds the end of the input. -/
theorem explorarSalas_descarta_linha_invalida :
    (∀ (nome : String) (esq dir : Sala) (c : Char) (corpo seguinte : Stdin)
        (out : List String),
      ¬ (esq = Sala.NULL ∧ dir = Sala.NULL) →
      tokenInvalido c = true →
      '\n' ∉ corpo →
      (∀ j, j ≤ corpo.length →
        executar (j + 1) ⟨Ponto.laco, Sala.node nome esq dir,
            c :: corpo ++ '\n' :: seguinte, out⟩ =
          ⟨Ponto.limpando, Sala.node nome esq dir, corpo.drop j ++ '\n' :: seguinte,
            out ++ [anuncio nome] ++ opcoes esq dir ++ [msgInvalida]⟩) ∧
      executar (corpo.length + 2) ⟨Ponto.laco, Sala.node nome esq dir,
          c :: corpo ++ '\n' :: seguinte, out⟩ =
        ⟨Ponto.laco, Sala.node nome esq dir, seguinte,
          out ++ [anuncio nome] ++ opcoes esq dir ++ [msgInvalida]⟩ ∧
      ∀ m,
        executar (corpo.length + 2 + m) ⟨Ponto.laco, Sala.node nome esq dir,
            c :: corpo ++ '\n' :: seguinte, out⟩ =
          comSaida (out ++ [anuncio nome] ++ opcoes esq dir ++ [msgInvalida])
            (executar m ⟨Ponto.laco, Sala.node nome esq dir, seguinte, []⟩) ∧
        executar m ⟨Ponto.laco, Sala.node nome esq dir, seguinte, out⟩ =
          comSaida out (executar m ⟨Ponto.laco, Sala.node nome esq dir, seguinte, []⟩)) ∧
    (∀ n, explorarSalas (n + 5) mapaMain ['1', 'e', '\n'] =
      ⟨Ponto.fim Termino.erroLeitura, mapaMain, [],
        [msgTitulo, anuncio "Hall de entrada", "Escolha seu proximo caminho: ", "[",
          "e (Esquerda) ", "d (Direita) ", "s (Sair)]: ", msgInvalida,
          anuncio "Hall de entrada", "Escolha seu proximo caminho: ", "[",
          "e (Esquerda) ", "d (Direita) ", "s (Sair)]: ", msgErroLeitura]⟩) := by
  constructor
  · intro nome esq dir c corpo seguinte out hnf hc hcorpo
    have hsp : isspace c = false := by
      simp only [tokenInvalido, Bool.and_eq_true, Bool.not_eq_true'] at hc
      exact hc.1.1.1
    have hread : scanfChar (c :: corpo ++ '\n' :: seguinte) =
        (some c, corpo ++ '\n' :: seguinte) := by
      rw [List.cons_append]; exact scanfChar_cons c _ hsp
    have h1 := passo_invalido nome esq dir _ _ c out hnf hread hc
    have hlinha := linha_invalida nome esq dir c corpo seguinte out hnf hc hcorpo
    refine ⟨?_, hlinha, ?_⟩
    · intro j hj
      rw [Nat.add_comm, executar_add]
      simp only [executar]
      rw [h1]
      exact limpando_parcial _ corpo seguinte _ hcorpo j hj
    · intro m
      constructor
      · rw [executar_add, hlinha, ← executar_comSaida]
        simp [comSaida]
      · rw [← executar_comSaida]
        simp [comSaida]
  · intro n
    have h5 : explorarSalas 5 mapaMain ['1', 'e', '\n'] =
        ⟨Ponto.fim Termino.erroLeitura, mapaMain, [],
          [msgTitulo, anuncio "Hall de entrada", "Escolha seu proximo caminho: ", "[",
            "e (Esquerda) ", "d (Direita) ", "s (Sair)]: ", msgInvalida,
            anuncio "Hall de entrada", "Escolha seu proximo caminho: ", "[",
            "e (Esquerda) ", "d (Direita) ", "s (Sair)]: ", msgErroLeitura]⟩ := by decide
    have hadd : explorarSalas (n + 5) mapaMain ['1', 'e', '\n'] =
        executar n (explorarSalas 5 mapaMain ['1', 'e', '\n']) := by
      unfold explorarSalas
      rw [Nat.add_comm, executar_add]
    rw [hadd, h5, executar_fim]

theorem explorarSalas_descarta_linha_invalida_witness :
    executar (['e', 'd'].length + 2) ⟨Ponto.laco, Sala.node "Biblioteca" Sala.NULL
        (Sala.node "Quarto Principal" Sala.NULL Sala.NULL),
        '7' :: ['e', 'd'] ++ '\n' :: ['d', '\n'], []⟩ =
      ⟨Ponto.laco, Sala.node "Biblioteca" Sala.NULL
        (Sala.node "Quarto Principal" Sala.NULL Sala.NULL), ['d', '\n'],
        [] ++ [anuncio "Biblioteca"]
          ++ opcoes Sala.NULL (Sala.node "Quarto Principal" Sala.NULL Sala.NULL)
          ++ [msgInvalida]⟩ :=
  (explorarSalas_descarta_linha_invalida.1 "Biblioteca" Sala.NULL
    (Sala.node "Quarto Principal" Sala.NULL Sala.NULL) '7' ['e', 'd'] ['d', '\n'] []
    (by decide) (by decide) (by decide)).2.1

/-- Claim C9: at a room with a child (the rooms where a choice is read), for every
input read after skipped white space, reading `E`, `D` or `S` leads at every later
step to exactly the state, output included, that reading `e`, `d` or `s` leads
to. -/
theorem explorarSalas_maiusculas (nome : String) (esq dir : Sala)
    (brancos resto : Stdin) (out : List String) (n : Nat)
    (hnf : ¬ (esq = Sala.NULL ∧ dir = Sala.NULL))
    (hb : ∀ b ∈ brancos, isspace b = true) :
    executar (n + 1) ⟨Ponto.laco, Sala.node nome esq dir, brancos ++ 'E' :: resto, out⟩ =
      executar (n + 1) ⟨Ponto.laco, Sala.node nome esq dir, brancos ++ 'e' :: resto, out⟩ ∧
    executar (n + 1) ⟨Ponto.laco, Sala.node nome esq dir, brancos ++ 'D' :: resto, out⟩ =
      executar (n + 1) ⟨Ponto.laco, Sala.node nome esq dir, brancos ++ 'd' :: resto, out⟩ ∧
    executar (n + 1) ⟨Ponto.laco, Sala.node nome esq dir, brancos ++ 'S' :: resto, out⟩ =
      executar (n + 1) ⟨Ponto.laco, Sala.node nome esq dir, brancos ++ 's' :: resto, out⟩ := by
  have key : ∀ c1 c2 : Char, isspace c1 = false → isspace c2 = false →
      tolower c1 = tolower c2 →
      executar (n + 1) ⟨Ponto.laco, Sala.node nome esq dir, brancos ++ c1 :: resto, out⟩ =
        executar (n + 1)
          ⟨Ponto.laco, Sala.node nome esq dir, brancos ++ c2 :: resto, out⟩ := by
    intro c1 c2 h1 h2 hlow
    simp only [executar]
    rw [passo_laco nome esq dir _ out hnf, passo_laco nome esq dir _ out hnf,
      scanfChar_brancos brancos c1 resto hb h1, scanfChar_brancos brancos c2 resto hb h2]
    simp only [hlow]
  exact ⟨key 'E' 'e' (by decide) (by decide) (by decide),
    key 'D' 'd' (by decide) (by decide) (by decide),
    key 'S' 's' (by decide) (by decide) (by decide)⟩

theorem explorarSalas_maiusculas_witness :
    executar (0 + 1) ⟨Ponto.laco, Sala.node "Biblioteca" Sala.NULL
        (Sala.node "Quarto Principal" Sala.NULL Sala.NULL), ['\n', ' '] ++ 'D' :: ['\n'], []⟩ =
      executar (0 + 1) ⟨Ponto.laco, Sala.node "Biblioteca" Sala.NULL
        (Sala.node "Quarto Principal" Sala.NULL Sala.NULL), ['\n', ' '] ++ 'd' :: ['\n'], []⟩ :=
  (explorarSalas_maiusculas "Biblioteca" Sala.NULL
    (Sala.node "Quarto Principal" Sala.NULL Sala.NULL) ['\n', ' '] ['\n'] [] 0
    (by decide) (by decide)).2.1

/-- Claim C10: at a room with a child, when the input holds nothing but white
space up to its end, so that `scanf` stores no character, the pass through the
loop body prints the read-failure line and the run is over at the `break` of the
failed read, for good: the read is not tried again and the current room is the
same. -/
theorem explorarSalas_erro_de_leitura (nome : String) (esq dir : Sala)
    (entrada : Stdin) (out : List String) (n : Nat)
    (hnf : ¬ (esq = Sala.NULL ∧ dir = Sala.NULL))
    (heof : ∀ c ∈ entrada, isspace c = true) :
    executar (n + 1) ⟨Ponto.laco, Sala.node nome esq dir, entrada, out⟩ =
      ⟨Ponto.fim Termino.erroLeitura, Sala.node nome esq dir, [],
        out ++ [anuncio nome] ++ opcoes esq dir ++ [msgErroLeitura]⟩ := by
  have h1 : passo ⟨Ponto.laco, Sala.node nome esq dir, entrada, out⟩ =
      ⟨Ponto.fim Termino.erroLeitura, Sala.node nome esq dir, [],
        out ++ [anuncio nome] ++ opcoes esq dir ++ [msgErroLeitura]⟩ := by
    rw [passo_laco nome esq dir entrada out hnf, scanfChar_espacos entrada heof]
    rfl
  simp only [executar, h1, executar_fim]

theorem explorarSalas_erro_de_leitura_witness :
    executar (3 + 1) ⟨Ponto.laco, Sala.node "Biblioteca" Sala.NULL
        (Sala.node "Quarto Principal" Sala.NULL Sala.NULL), [' ', '\n'], [msgTitulo]⟩ =
      ⟨Ponto.fim Termino.erroLeitura, Sala.node "Biblioteca" Sala.NULL
        (Sala.node "Quarto Principal" Sala.NULL Sala.NULL), [],
        [msgTitulo] ++ [anuncio "Biblioteca"]
          ++ opcoes Sala.NULL (Sala.node "Quarto Principal" Sala.NULL Sala.NULL)
          ++ [msgErroLeitura]⟩ :=
  explorarSalas_erro_de_leitura "Biblioteca" Sala.NULL
    (Sala.node "Quarto Principal" Sala.NULL Sala.NULL) [' ', '\n'] [msgTitulo] 3
    (by decide) (by decide)

/-! ## Teardown: basic facts -/

theorem subarvore_NULL (p : List Lado) : subarvore Sala.NULL p = Sala.NULL := by
  induction p with
  | nil => rfl
  | cons l p ih => cases l <;> simpa [subarvore, Sala.esquerda, Sala.direita] using ih

theorem liberarMapa_length (s : Sala) : (liberarMapa s).length = tamanho s := by
  induction s with
  | NULL => rfl
  | node n e d ihe ihd => simp [liberarMapa, tamanho, ihe, ihd, Nat.add_assoc]

theorem mem_liberarMapa (s : Sala) (p : List Lado) :
    p ∈ liberarMapa s ↔ subarvore s p ≠ Sala.NULL := by
  induction s generalizing p with
  | NULL => simp [liberarMapa, subarvore_NULL]
  | node n e d ihe ihd =>
    cases p with
    | nil => simp [liberarMapa, subarvore]
    | cons l q =>
      cases l <;> simp [liberarMapa, subarvore, Sala.esquerda, Sala.direita, ihe, ihd]

/-- In the order of the `free` calls no room comes before a room below it. -/
theorem liberarMapa_pairwise (s : Sala) :
    (liberarMapa s).Pairwise fun a b => ¬ a <+: b := by
  induction s with
  | NULL => simp [liberarMapa]
  | node n e d ihe ihd =>
    simp only [liberarMapa]
    rw [List.pairwise_append, List.pairwise_append, List.pairwise_map, List.pairwise_map]
    refine ⟨⟨?_, ?_, ?_⟩, List.pairwise_singleton _ _, ?_⟩
    · exact ihe.imp fun h hp => h ((List.prefix_cons_inj _).1 hp)
    · exact ihd.imp fun h hp => h ((List.prefix_cons_inj _).1 hp)
    · intro a ha b hb hp
      simp only [List.mem_map] at ha hb
      obtain ⟨a', _, rfl⟩ := ha
      obtain ⟨b', _, rfl⟩ := hb
      have := List.cons_prefix_cons.1 hp
      exact absurd this.1 (by decide)
    · intro a ha b hb hp
      simp only [List.mem_singleton] at hb
      subst hb
      have hnil : a = [] := List.prefix_nil.1 hp
      subst hnil
      simp at ha

theorem liberarMapa_nodup (s : Sala) : (liberarMapa s).Nodup :=
  (liberarMapa_pairwise s).imp fun {a b} h (he : a = b) => h (he ▸ List.prefix_refl a)

/-- On the map of `main` with the input `1` and then end of input, every state
after the first step is the line-discarding loop with nothing left to read. -/
theorem explorarSalas_um_preso (n : Nat) :
    explorarSalas (n + 1) mapaMain ['1'] =
      ⟨Ponto.limpando, mapaMain, [],
        [msgTitulo, anuncio "Hall de entrada"] ++ opcoes mapaMain.esquerda mapaMain.direita
          ++ [msgInvalida]⟩ := by
  have h1 : passo (entrar mapaMain ['1']) =
      ⟨Ponto.limpando, mapaMain, [],
        [msgTitulo, anuncio "Hall de entrada"] ++ opcoes mapaMain.esquerda mapaMain.direita
          ++ [msgInvalida]⟩ := by decide
  simp only [explorarSalas, executar, h1, executar_limpando_eof]

/-- Once the call of `explorarSalas` has returned, `main` has called `liberarMapa`
on its root exactly once and has returned `0`. -/
theorem main_libera_uma_vez (n : Nat) (entrada : Stdin) (t : Termino)
    (h : (explorarSalas n mapaMain entrada).ponto = Ponto.fim t) :
    main n entrada =
      ⟨explorarSalas n mapaMain entrada, [liberarMapa mapaMain], some 0⟩ := by
  simp only [main, h]

theorem executar_succ (n : Nat) (st : Estado) :
    executar (n + 1) st = passo (executar n st) := by
  rw [executar_add]; rfl

theorem subarvore_append (s : Sala) (p q : List Lado) :
    subarvore s (p ++ q) = subarvore (subarvore s p) q := by
  induction p generalizing s with
  | nil => rfl
  | cons l p ih => cases l <;> simp [subarvore, ih]

/-- A step keeps the current room or replaces it by one of its children, and then
by a child that is not `NULL`. -/
theorem passo_atual (st : Estado) :
    (passo st).atual = st.atual ∨
      ((passo st).atual = st.atual.esquerda ∧ (passo st).atual ≠ Sala.NULL) ∨
      ((passo st).atual = st.atual.direita ∧ (passo st).atual ≠ Sala.NULL) := by
  rcases st with ⟨p, a, i, o⟩
  cases p with
  | fim t => left; simp [passo]
  | limpando =>
    left
    cases i with
    | nil => simp [passo, getchar]
    | cons c r => by_cases hc : c = '\n' <;> simp [passo, getchar, hc]
  | laco =>
    cases a with
    | NULL => left; simp [passo]
    | node nome esq dir =>
      by_cases hnf : esq = Sala.NULL ∧ dir = Sala.NULL
      · left; simp [passo, hnf]
      · rw [passo_laco nome esq dir i o hnf]
        rcases scanfChar i with ⟨_ | c, resto⟩
        · left; rfl
        · dsimp only
          split_ifs with h1 h2 h3 h4 h5
          · right; left; exact ⟨rfl, h2⟩
          · left; rfl
          · right; right; exact ⟨rfl, h4⟩
          · left; rfl
          · left; rfl
          · left; rfl

theorem takeWhile_nul (l r : List Char) (h : '\x00' ∉ l) :
    (l ++ '\x00' :: r).takeWhile (fun c => c != '\x00') = l := by
  induction l with
  | nil => simp [List.takeWhile]
  | cons x xs ih =>
    have hx : x ≠ '\x00' := fun he => h (he ▸ List.mem_cons_self _ _)
    have hxs : '\x00' ∉ xs := fun hm => h (List.mem_cons_of_mem _ hm)
    have hb : (x != '\x00') = true := by simpa using hx
    simp [List.takeWhile, hb, ih hxs]

theorem nomeGravado_length (nome : List Char) : (nomeGravado nome).length = MAX_NOME := by
  simp only [nomeGravado, strncpy, MAX_NOME, List.length_append, List.length_take,
    List.length_replicate, List.length_singleton]
  omega

theorem lerString_nomeGravado (nome : List Char) (h : '\x00' ∉ nome) :
    lerString (nomeGravado nome) = some (nome.take (MAX_NOME - 1)) := by
  have hmem : '\x00' ∈ nomeGravado nome := by simp [nomeGravado]
  have htake : '\x00' ∉ nome.take (MAX_NOME - 1) := fun hm => h (List.mem_of_mem_take hm)
  simp only [lerString, hmem, if_true, Option.some.injEq]
  have hsplit : nomeGravado nome =
      nome.take (MAX_NOME - 1) ++ '\x00' ::
        (List.replicate (MAX_NOME - 1 - nome.length) '\x00' ++ ['\x00']).tail := by
    simp only [nomeGravado, strncpy, List.append_assoc]
    congr 1
    cases hk : MAX_NOME - 1 - nome.length with
    | zero => simp
    | succ k => simp [List.replicate_succ]
  rw [hsplit]
  exact takeWhile_nul _ _ htake

theorem pularEspacos_brancos (brancos i : Stdin) (hb : ∀ b ∈ brancos, isspace b = true) :
    pularEspacos (brancos ++ i) = pularEspacos i := by
  induction brancos with
  | nil => rfl
  | cons b bs ih =>
    have hb1 : isspace b = true := hb b (List.mem_cons_self _ _)
    have hbs : ∀ x ∈ bs, isspace x = true := fun x hx => hb x (List.mem_cons_of_mem _ hx)
    simp only [List.cons_append, pularEspacos, hb1, if_true]
    exact ih hbs

theorem scanfChar_pula_brancos (brancos i : Stdin) (hb : ∀ b ∈ brancos, isspace b = true) :
    scanfChar (brancos ++ i) = scanfChar i := by
  simp only [scanfChar, pularEspacos_brancos brancos i hb]

/-- At a room with a child, white space before the next character read changes
nothing in the pass through the loop body. -/
theorem passo_pula_brancos (nome : String) (esq dir : Sala) (brancos i : Stdin)
    (out : List String) (hnf : ¬ (esq = Sala.NULL ∧ dir = Sala.NULL))
    (hb : ∀ b ∈ brancos, isspace b = true) :
    passo ⟨Ponto.laco, Sala.node nome esq dir, brancos ++ i, out⟩ =
      passo ⟨Ponto.laco, Sala.node nome esq dir, i, out⟩ := by
  rw [passo_laco nome esq dir _ out hnf, passo_laco nome esq dir _ out hnf,
    scanfChar_pula_brancos brancos i hb]

/-- Following from any room a chain of choices that ends at a room without
children: after one pass per choice and one more the run is over at that room,
with exactly those choices consumed. -/
theorem explorarSalas_percorre (folha : String) (resto : Stdin)
    (ts : List (Stdin × Lado)) :
    ∀ (a : Sala) (out : List String),
      (∀ t ∈ ts, ∀ b ∈ t.1, isspace b = true) →
      subarvore a (ts.map Prod.snd) = Sala.node folha Sala.NULL Sala.NULL →
      ∃ o, executar (ts.length + 1) ⟨Ponto.laco, a, entradaTokens ts ++ resto, out⟩ =
        ⟨Ponto.fim Termino.folha, Sala.node folha Sala.NULL Sala.NULL, resto,
          o ++ [anuncio folha, msgFolha]⟩ := by
  induction ts with
  | nil =>
    intro a out _ hsub
    simp only [List.map_nil, subarvore] at hsub
    subst hsub
    exact ⟨out, by simp [executar, passo_folha, entradaTokens]⟩
  | cons t ts ih =>
    intro a out hb hsub
    have hbt : ∀ b ∈ t.1, isspace b = true := hb t (List.mem_cons_self _ _)
    have hbts : ∀ x ∈ ts, ∀ b ∈ x.1, isspace b = true :=
      fun x hx => hb x (List.mem_cons_of_mem _ hx)
    cases a with
    | NULL => rw [subarvore_NULL] at hsub; cases hsub
    | node nome esq dir =>
      have hin : entradaTokens (t :: ts) ++ resto =
          t.1 ++ marcador t.2 :: (entradaTokens ts ++ resto) := by
        simp [entradaTokens, List.flatMap_cons]
      have hread : scanfChar (entradaTokens (t :: ts) ++ resto) =
          (some (marcador t.2), entradaTokens ts ++ resto) := by
        rw [hin]
        exact scanfChar_brancos t.1 _ _ hbt (by cases t.2 <;> decide)
      rcases t with ⟨brancos, lado⟩
      cases lado with
      | esquerda =>
        simp only [List.map_cons, subarvore, Sala.esquerda] at hsub
        have he : esq ≠ Sala.NULL := by
          intro h; rw [h, subarvore_NULL] at hsub; cases hsub
        have hnf : ¬ (esq = Sala.NULL ∧ dir = Sala.NULL) := fun h => he h.1
        obtain ⟨o, ho⟩ := ih esq
          (out ++ [anuncio nome] ++ opcoes esq dir ++ ["-> Seguindo para a Esquerda.\n"])
          hbts hsub
        refine ⟨o, ?_⟩
        rw [List.length_cons, executar, passo_laco nome esq dir _ out hnf, hread]
        simp only [marcador, show tolower 'e' = 'e' by decide, if_true, he, ne_eq,
          not_false_eq_true]
        exact ho
      | direita =>
        simp only [List.map_cons, subarvore, Sala.direita] at hsub
        have hd : dir ≠ Sala.NULL := by
          intro h; rw [h, subarvore_NULL] at hsub; cases hsub
        have hnf : ¬ (esq = Sala.NULL ∧ dir = Sala.NULL) := fun h => hd h.2
        obtain ⟨o, ho⟩ := ih dir
          (out ++ [anuncio nome] ++ opcoes esq dir ++ ["-> Seguindo para a Direita.\n"])
          hbts hsub
        refine ⟨o, ?_⟩
        rw [List.length_cons, executar, passo_laco nome esq dir _ out hnf, hread]
        simp only [marcador, show tolower 'd' = 'd' by decide, if_true, hd, ne_eq,
          not_false_eq_true, show ¬ ('d' = 'e') by decide, if_false]
        exact ho

/-! ## The exploration loop with the rooms kept in memory: basic facts -/

/-- What a step on the state with memory does at a room with a child, by cases on
the character stored by `scanf`. -/
theorem passoMapa_laco (m : Sala) (c : List Lado) (i : Stdin) (o : List String)
    (nome : String) (esq dir : Sala) (h : subarvore m c = Sala.node nome esq dir)
    (hnf : ¬ (esq = Sala.NULL ∧ dir = Sala.NULL)) :
    passoMapa ⟨m, Ponto.laco, c, i, o⟩ =
      match scanfChar i with
      | (none, resto) =>
        ⟨m, Ponto.fim Termino.erroLeitura, c, resto,
          o ++ [anuncio nome] ++ opcoes esq dir ++ ["Erro na leitura. Saindo...\n"]⟩
      | (some x, resto) =>
        if tolower x = 'e' then
          if esq ≠ Sala.NULL then
            ⟨m, Ponto.laco, c ++ [Lado.esquerda], resto,
              o ++ [anuncio nome] ++ opcoes esq dir ++ ["-> Seguindo para a Esquerda.\n"]⟩
          else
            ⟨m, Ponto.laco, c, resto,
              o ++ [anuncio nome] ++ opcoes esq dir
                ++ ["Caminho a esquerda nao existe. Escolha novamente.\n"]⟩
        else if tolower x = 'd' then
          if dir ≠ Sala.NULL then
            ⟨m, Ponto.laco, c ++ [Lado.direita], resto,
              o ++ [anuncio nome] ++ opcoes esq dir ++ ["-> Seguindo para a Direita.\n"]⟩
          else
            ⟨m, Ponto.laco, c, resto,
              o ++ [anuncio nome] ++ opcoes esq dir
                ++ ["Caminho a direita nao existe. Escolha novamente.\n"]⟩
        else if tolower x = 's' then
          ⟨m, Ponto.fim Termino.sair, c, resto,
            o ++ [anuncio nome] ++ opcoes esq dir
              ++ ["Saindo da mansao... Exploracao encerrada.\n"]⟩
        else
          ⟨m, Ponto.limpando, c, resto,
            o ++ [anuncio nome] ++ opcoes esq dir ++ [msgInvalida]⟩ := by
  simp only [passoMapa, h, hnf, if_false, msgInvalida]

/-- No step stores into the memory holding the rooms. -/
theorem passoMapa_mapa (st : EstadoMapa) : (passoMapa st).mapa = st.mapa := by
  rcases st with ⟨m, p, c, i, o⟩
  cases p with
  | fim t => simp [passoMapa]
  | limpando =>
    cases i with
    | nil => simp [passoMapa, getchar]
    | cons x r => by_cases hx : x = '\n' <;> simp [passoMapa, getchar, hx]
  | laco =>
    cases h : subarvore m c with
    | NULL => simp [passoMapa, h]
    | node nome esq dir =>
      by_cases hnf : esq = Sala.NULL ∧ dir = Sala.NULL
      · simp [passoMapa, h, hnf]
      · rw [passoMapa_laco m c i o nome esq dir h hnf]
        rcases scanfChar i with ⟨_ | x, r⟩
        · rfl
        · dsimp only
          split_ifs <;> rfl

/-- A step moves the pointer `atual` by at most one link. -/
theorem passoMapa_atual (st : EstadoMapa) :
    (passoMapa st).atual = st.atual ∨
      (passoMapa st).atual = st.atual ++ [Lado.esquerda] ∨
      (passoMapa st).atual = st.atual ++ [Lado.direita] := by
  rcases st with ⟨m, p, c, i, o⟩
  cases p with
  | fim t => left; simp [passoMapa]
  | limpando =>
    left
    cases i with
    | nil => simp [passoMapa, getchar]
    | cons x r => by_cases hx : x = '\n' <;> simp [passoMapa, getchar, hx]
  | laco =>
    cases h : subarvore m c with
    | NULL => left; simp [passoMapa, h]
    | node nome esq dir =>
      by_cases hnf : esq = Sala.NULL ∧ dir = Sala.NULL
      · left; simp [passoMapa, h, hnf]
      · rw [passoMapa_laco m c i o nome esq dir h hnf]
        rcases scanfChar i with ⟨_ | x, r⟩
        · left; rfl
        · dsimp only
          split_ifs
          · right; left; rfl
          · left; rfl
          · right; right; rfl
          · left; rfl
          · left; rfl
          · left; rfl

/-- The step on states with memory is the step `passo` on the states they stand
for. -/
theorem projetar_passoMapa (st : EstadoMapa) :
    projetar (passoMapa st) = passo (projetar st) := by
  rcases st with ⟨m, p, c, i, o⟩
  cases p with
  | fim t => simp [passoMapa, passo, projetar]
  | limpando =>
    cases i with
    | nil => simp [passoMapa, passo, projetar, getchar]
    | cons x r => by_cases hx : x = '\n' <;> simp [passoMapa, passo, projetar, getchar, hx]
  | laco =>
    cases h : subarvore m c with
    | NULL => simp [passoMapa, passo, projetar, h]
    | node nome esq dir =>
      by_cases hnf : esq = Sala.NULL ∧ dir = Sala.NULL
      · simp [passoMapa, passo, projetar, h, hnf]
      · have hproj : projetar ⟨m, Ponto.laco, c, i, o⟩ =
            ⟨Ponto.laco, Sala.node nome esq dir, i, o⟩ := by
          simp [projetar, h]
        rw [hproj, passo_laco nome esq dir i o hnf, passoMapa_laco m c i o nome esq dir h hnf]
        rcases scanfChar i with ⟨_ | x, r⟩
        · simp [projetar, h]
        · dsimp only
          split_ifs <;>
            simp [projetar, h, subarvore_append, subarvore, Sala.esquerda, Sala.direita]

theorem executarMapa_succ (n : Nat) (st : EstadoMapa) :
    executarMapa (n + 1) st = passoMapa (executarMapa n st) := by
  induction n generalizing st with
  | zero => rfl
  | succ n ih =>
    have : executarMapa (n + 1 + 1) st = executarMapa (n + 1) (passoMapa st) := rfl
    rw [this, ih (passoMapa st)]
    rfl

theorem executarMapa_mapa (n : Nat) (st : EstadoMapa) :
    (executarMapa n st).mapa = st.mapa := by
  induction n with
  | zero => rfl
  | succ n ih => rw [executarMapa_succ, passoMapa_mapa, ih]

theorem projetar_executarMapa (n : Nat) (st : EstadoMapa) :
    projetar (executarMapa n st) = executar n (projetar st) := by
  induction n with
  | zero => rfl
  | succ n ih => rw [executarMapa_succ, executar_succ, projetar_passoMapa, ih]

theorem projetar_entrarMapa (raiz : Sala) (entrada : Stdin) :
    projetar (entrarMapa raiz entrada) = entrar raiz entrada := by
  cases raiz <;> rfl

theorem entrarMapa_mapa (raiz : Sala) (entrada : Stdin) :
    (entrarMapa raiz entrada).mapa = raiz := by
  cases raiz <;> rfl

theorem entrarMapa_atual (raiz : Sala) (entrada : Stdin) :
    (entrarMapa raiz entrada).atual = [] := by
  cases raiz <;> rfl

/-! ## Empty map, teardown and `main`: claims -/

/-- Claim C11: for a `NULL` root and every input, the run of `explorarSalas` is over
from the start at the `return` of the `NULL` test: the only line printed is the
empty-map report, which is neither the announcement of a room nor a string of a
prompt, and the input is left as it was. -/
theorem explorarSalas_mapa_vazio (entrada : Stdin) (n : Nat) :
    explorarSalas n Sala.NULL entrada =
      ⟨Ponto.fim Termino.mapaVazio, Sala.NULL, entrada, [msgMapaVazio]⟩ ∧
    (∀ nome : String, anuncio nome ∉ [msgMapaVazio]) ∧
    (∀ (e d : Sala) (s : String), s ∈ opcoes e d → s ∉ [msgMapaVazio]) := by
  refine ⟨?_, ?_, ?_⟩
  · unfold explorarSalas
    exact executar_fim n _ _ _ _
  · intro nome hmem
    simp only [List.mem_singleton] at hmem
    exact anuncio_ne nome msgMapaVazio (by decide) hmem
  · intro e d s hs hmem
    simp only [List.mem_singleton] at hmem
    subst hmem
    rcases mem_opcoes e d _ hs with h | h | h | h | h <;> exact absurd h (by decide)

theorem explorarSalas_mapa_vazio_witness :
    explorarSalas 7 Sala.NULL ['e', '\n'] =
      ⟨Ponto.fim Termino.mapaVazio, Sala.NULL, ['e', '\n'], [msgMapaVazio]⟩ ∧
    "s (Sair)]: " ∉ [msgMapaVazio] :=
  ⟨(explorarSalas_mapa_vazio ['e', '\n'] 7).1,
    (explorarSalas_mapa_vazio ['e', '\n'] 7).2.2 Sala.NULL Sala.NULL "s (Sair)]: "
      (by decide)⟩

/-- Claim C12: for every map, the `free` calls of `liberarMapa` are as many as the
rooms of the map, no room is freed twice, and the rooms freed are exactly the
rooms reachable from the root; so a counter raised by one per room allocated and
lowered by one per `free` is back at its starting value. On a `NULL` root nothing
is freed. -/
theorem liberarMapa_libera_cada_sala (s : Sala) :
    (liberarMapa s).length = tamanho s ∧
    (liberarMapa s).Nodup ∧
    (∀ p : List Lado, p ∈ liberarMapa s ↔ subarvore s p ≠ Sala.NULL) ∧
    (∀ base : Nat, base + tamanho s - (liberarMapa s).length = base) ∧
    liberarMapa Sala.NULL = [] := by
  refine ⟨liberarMapa_length s, liberarMapa_nodup s, mem_liberarMapa s, ?_, rfl⟩
  intro base
  rw [liberarMapa_length]
  omega

/-- Claim C13, which the code does not meet for every input: with the input `1`
and then end of input the call of `explorarSalas` made by `main` never returns, so
`main` never calls `liberarMapa` and never returns. -/
theorem main_nao_libera_sem_fim_de_linha :
    ∀ n : Nat, (main n ['1']).liberacoes = [] ∧ (main n ['1']).retorno = none := by
  intro n
  cases n with
  | zero => decide
  | succ n => simp only [main, explorarSalas_um_preso, and_self]

/-- Claim C17: `liberarMapa` frees in post-order. The `free` calls for a room are
those of its whole left subtree, then those of its whole right subtree, then the
room itself; hence in the order of the calls no room comes before a room below
it. On the map of `main` the order is Despensa, Varanda Secreta, Copa, Cozinha,
Jardim de Inverno, Sala de Estar, Quarto Principal, Biblioteca, Hall de
entrada. -/
theorem liberarMapa_pos_ordem :
    (∀ (n : String) (e d : Sala),
      liberarMapa (Sala.node n e d) =
        (liberarMapa e).map (fun p => Lado.esquerda :: p)
          ++ (liberarMapa d).map (fun p => Lado.direita :: p) ++ [[]]) ∧
    (∀ s : Sala, (liberarMapa s).Pairwise fun a b => ¬ a <+: b) ∧
    (liberarMapa mapaMain).map (fun p => (subarvore mapaMain p).nome) =
      ["Despensa", "Varanda Secreta", "Copa", "Cozinha", "Jardim de Inverno",
        "Sala de Estar", "Quarto Principal", "Biblioteca", "Hall de entrada"] :=
  ⟨fun _ _ _ => rfl, liberarMapa_pairwise, by decide⟩

/-- Claim C14: the current room only follows the links of the map: it starts as the
root, each step keeps it or replaces it by its left or right child (one that is
not `NULL`), and at every step it is the room reached from the root along some
chain of child fields, with its whole subtree as in the map given; for a root that
is not `NULL` it is never `NULL`. And the map is never changed: in the run on the
state that holds the rooms in memory, the memory after any number of steps is the
tree given to the call; that run starts with the pointer `atual` at the root,
moves it by at most one link per step, and at every step stands for exactly the
state of the run of `explorarSalas`. -/
theorem explorarSalas_so_segue_ligacoes (raiz : Sala) (entrada : Stdin) :
    (explorarSalas 0 raiz entrada).atual = raiz ∧
    (∀ n,
      (explorarSalas (n + 1) raiz entrada).atual = (explorarSalas n raiz entrada).atual ∨
      ((explorarSalas (n + 1) raiz entrada).atual =
          (explorarSalas n raiz entrada).atual.esquerda ∧
        (explorarSalas (n + 1) raiz entrada).atual ≠ Sala.NULL) ∨
      ((explorarSalas (n + 1) raiz entrada).atual =
          (explorarSalas n raiz entrada).atual.direita ∧
        (explorarSalas (n + 1) raiz entrada).atual ≠ Sala.NULL)) ∧
    (∀ n, ∃ p : List Lado, p.length ≤ n ∧
      (explorarSalas n raiz entrada).atual = subarvore raiz p) ∧
    (∀ n, raiz ≠ Sala.NULL → (explorarSalas n raiz entrada).atual ≠ Sala.NULL) ∧
    (∀ n, (explorarSalasMapa n raiz entrada).mapa = raiz) ∧
    (∀ n, projetar (explorarSalasMapa n raiz entrada) = explorarSalas n raiz entrada) ∧
    (explorarSalasMapa 0 raiz entrada).atual = [] ∧
    (∀ n,
      (explorarSalasMapa (n + 1) raiz entrada).atual =
          (explorarSalasMapa n raiz entrada).atual ∨
        (explorarSalasMapa (n + 1) raiz entrada).atual =
          (explorarSalasMapa n raiz entrada).atual ++ [Lado.esquerda] ∨
        (explorarSalasMapa (n + 1) raiz entrada).atual =
          (explorarSalasMapa n raiz entrada).atual ++ [Lado.direita]) ∧
    (∀ n, subarvore raiz (explorarSalasMapa n raiz entrada).atual =
      (explorarSalas n raiz entrada).atual) := by
  have hmapa : ∀ n, (explorarSalasMapa n raiz entrada).mapa = raiz := by
    intro n
    unfold explorarSalasMapa
    rw [executarMapa_mapa, entrarMapa_mapa]
  have hproj : ∀ n, projetar (explorarSalasMapa n raiz entrada) =
      explorarSalas n raiz entrada := by
    intro n
    unfold explorarSalasMapa explorarSalas
    rw [projetar_executarMapa, projetar_entrarMapa]
  have hptr : ∀ n,
      (explorarSalasMapa (n + 1) raiz entrada).atual =
          (explorarSalasMapa n raiz entrada).atual ∨
        (explorarSalasMapa (n + 1) raiz entrada).atual =
          (explorarSalasMapa n raiz entrada).atual ++ [Lado.esquerda] ∨
        (explorarSalasMapa (n + 1) raiz entrada).atual =
          (explorarSalasMapa n raiz entrada).atual ++ [Lado.direita] := by
    intro n
    have hs : explorarSalasMapa (n + 1) raiz entrada =
        passoMapa (explorarSalasMapa n raiz entrada) := by
      unfold explorarSalasMapa
      exact executarMapa_succ n _
    rw [hs]
    exact passoMapa_atual _
  have hsub : ∀ n, subarvore raiz (explorarSalasMapa n raiz entrada).atual =
      (explorarSalas n raiz entrada).atual := by
    intro n
    have h := congrArg Estado.atual (hproj n)
    simp only [projetar] at h
    rw [hmapa n] at h
    exact h
  have h0 : (explorarSalas 0 raiz entrada).atual = raiz := by
    cases raiz <;> rfl
  have hstep : ∀ n,
      (explorarSalas (n + 1) raiz entrada).atual = (explorarSalas n raiz entrada).atual ∨
      ((explorarSalas (n + 1) raiz entrada).atual =
          (explorarSalas n raiz entrada).atual.esquerda ∧
        (explorarSalas (n + 1) raiz entrada).atual ≠ Sala.NULL) ∨
      ((explorarSalas (n + 1) raiz entrada).atual =
          (explorarSalas n raiz entrada).atual.direita ∧
        (explorarSalas (n + 1) raiz entrada).atual ≠ Sala.NULL) := by
    intro n
    have hs : explorarSalas (n + 1) raiz entrada = passo (explorarSalas n raiz entrada) := by
      unfold explorarSalas
      exact executar_succ n _
    rw [hs]
    exact passo_atual _
  refine ⟨h0, hstep, ?_, ?_, hmapa, hproj, entrarMapa_atual raiz entrada, hptr, hsub⟩
  · intro n
    induction n with
    | zero => exact ⟨[], le_refl _, h0⟩
    | succ n ih =>
      obtain ⟨p, hp, hsub⟩ := ih
      rcases hstep n with h | ⟨h, _⟩ | ⟨h, _⟩
      · exact ⟨p, Nat.le_succ_of_le hp, by rw [h, hsub]⟩
      · refine ⟨p ++ [Lado.esquerda], by simpa using hp, ?_⟩
        rw [h, hsub, subarvore_append]
        rfl
      · refine ⟨p ++ [Lado.direita], by simpa using hp, ?_⟩
        rw [h, hsub, subarvore_append]
        rfl
  · intro n hraiz
    induction n with
    | zero => rw [h0]; exact hraiz
    | succ n ih =>
      rcases hstep n with h | ⟨_, h⟩ | ⟨_, h⟩
      · rw [h]; exact ih
      · exact h
      · exact h

theorem explorarSalas_so_segue_ligacoes_witness :
    (explorarSalas 3 mapaMain ['d', 'x', '\n', 'd']).atual ≠ Sala.NULL :=
  (explorarSalas_so_segue_ligacoes mapaMain ['d', 'x', '\n', 'd']).2.2.2.1 3 (by decide)

/-- Claim C15: for every name (a string, so without a NUL character inside),
`criarSala` returns a room whose two child pointers are `NULL` and whose name is
the first `min (length of the name) (MAX_NOME - 1)` characters of the name given,
so never more than `MAX_NOME - 1 = 49` characters. The array written by `strncpy`
and the store of the terminator has `MAX_NOME` bytes, holds a NUL byte, and the
string read from it is that stored name. -/
theorem criarSala_nome_truncado (nome : String) (h : '\x00' ∉ nome.data) :
    ∃ s : String,
      criarSala nome = Sala.node s Sala.NULL Sala.NULL ∧
      s.data = nome.data.take (min nome.data.length 49) ∧
      s.data.length = min nome.data.length 49 ∧
      s.data.length ≤ MAX_NOME - 1 ∧
      (nomeGravado nome.data).length = MAX_NOME ∧
      lerString (nomeGravado nome.data) = some s.data := by
  have htake : nome.data.take (min nome.data.length 49) = nome.data.take 49 := by
    by_cases hle : nome.data.length ≤ 49
    · rw [Nat.min_eq_left hle, List.take_of_length_le (le_refl _),
        List.take_of_length_le hle]
    · rw [Nat.min_eq_right (by omega)]
  refine ⟨String.mk (nome.data.take (MAX_NOME - 1)), rfl, ?_, ?_, ?_,
    nomeGravado_length nome.data, lerString_nomeGravado nome.data h⟩
  · exact htake.symm
  · simp [MAX_NOME, List.length_take, Nat.min_comm]
  · simp [MAX_NOME, List.length_take]

theorem criarSala_nome_truncado_witness :
    ∃ s : String,
      criarSala "Hall de entrada" = Sala.node s Sala.NULL Sala.NULL ∧
      s.data = "Hall de entrada".data.take (min "Hall de entrada".data.length 49) ∧
      s.data.length = min "Hall de entrada".data.length 49 ∧
      s.data.length ≤ MAX_NOME - 1 ∧
      (nomeGravado "Hall de entrada".data).length = MAX_NOME ∧
      lerString (nomeGravado "Hall de entrada".data) = some s.data :=
  criarSala_nome_truncado "Hall de entrada" (by decide)

theorem tokenReconhecido_nao_branco (c : Char) (h : tokenReconhecido c = true) :
    isspace c = false := by
  cases hs : isspace c with
  | false => rfl
  | true =>
    exfalso
    simp only [isspace, decide_eq_true_eq] at hs
    rcases hs with h1 | h1 | h1 | h1 | h1 | h1 <;> subst h1 <;> revert h <;> decide

theorem mesmoVisivel_fim (t : Termino) (a : Sala) (i1 i2 : Stdin) (o : List String)
    (n : Nat) :
    mesmoVisivel (executar n ⟨Ponto.fim t, a, i1, o⟩) (executar n ⟨Ponto.fim t, a, i2, o⟩) := by
  rw [executar_fim, executar_fim]
  exact ⟨rfl, rfl, rfl⟩

/-- At `NULL` or at a room without children the input plays no part. -/
theorem mesmoVisivel_sem_leitura (a : Sala) (i1 i2 : Stdin) (o : List String) (n : Nat)
    (h : ∀ nome esq dir, a = Sala.node nome esq dir → esq = Sala.NULL ∧ dir = Sala.NULL) :
    mesmoVisivel (executar n ⟨Ponto.laco, a, i1, o⟩) (executar n ⟨Ponto.laco, a, i2, o⟩) := by
  cases n with
  | zero => exact ⟨rfl, rfl, rfl⟩
  | succ n =>
    cases a with
    | NULL =>
      simp only [executar, passo]
      exact mesmoVisivel_fim _ _ _ _ _ n
    | node nome esq dir =>
      obtain ⟨he, hd⟩ := h nome esq dir rfl
      subst he; subst hd
      simp only [executar, passo_folha]
      exact mesmoVisivel_fim _ _ _ _ _ n

theorem mesmoVisivel_brancos (a : Sala) (brancos i : Stdin) (o : List String) (n : Nat)
    (hb : ∀ b ∈ brancos, isspace b = true) :
    mesmoVisivel (executar n ⟨Ponto.laco, a, brancos ++ i, o⟩)
      (executar n ⟨Ponto.laco, a, i, o⟩) := by
  by_cases hl : ∀ nome esq dir, a = Sala.node nome esq dir → esq = Sala.NULL ∧ dir = Sala.NULL
  · exact mesmoVisivel_sem_leitura a _ _ o n hl
  · cases n with
    | zero => exact ⟨rfl, rfl, rfl⟩
    | succ n =>
      cases a with
      | NULL => exact absurd (fun _ _ _ h => by cases h) hl
      | node nome esq dir =>
        have hnf : ¬ (esq = Sala.NULL ∧ dir = Sala.NULL) := by
          intro h
          apply hl
          intro nome2 esq2 dir2 heq
          cases heq
          exact h
        simp only [executar, passo_pula_brancos nome esq dir brancos i o hnf hb]
        exact ⟨rfl, rfl, rfl⟩

theorem mesmoVisivel_trans {s1 s2 s3 : Estado} (h12 : mesmoVisivel s1 s2)
    (h23 : mesmoVisivel s2 s3) : mesmoVisivel s1 s3 :=
  ⟨h12.1.trans h23.1, h12.2.1.trans h23.2.1, h12.2.2.trans h23.2.2⟩

/-- After a marker is read at a room with a child, the next state is the loop
head or the `return` of `case 's'`; its room and output do not depend on what
follows the marker, and its input is what follows the marker. -/
theorem passo_reconhecido (nome : String) (esq dir : Sala) (c : Char) (out : List String)
    (hnf : ¬ (esq = Sala.NULL ∧ dir = Sala.NULL)) (hc : tokenReconhecido c = true) :
    ∃ (p : Ponto) (a : Sala) (o2 : List String),
      (p = Ponto.laco ∨ p = Ponto.fim Termino.sair) ∧
      ∀ i r, scanfChar i = (some c, r) →
        passo ⟨Ponto.laco, Sala.node nome esq dir, i, out⟩ = ⟨p, a, r, o2⟩ := by
  simp only [tokenReconhecido, Bool.or_eq_true, beq_iff_eq] at hc
  by_cases h1 : tolower c = 'e'
  · by_cases he : esq = Sala.NULL
    · refine ⟨Ponto.laco, Sala.node nome esq dir,
        out ++ [anuncio nome] ++ opcoes esq dir
          ++ ["Caminho a esquerda nao existe. Escolha novamente.\n"],
        Or.inl rfl, fun i r hr => ?_⟩
      rw [passo_laco nome esq dir i out hnf, hr]
      simp only [h1, if_true, he, ne_eq, not_true_eq_false, if_false]
    · refine ⟨Ponto.laco, esq,
        out ++ [anuncio nome] ++ opcoes esq dir ++ ["-> Seguindo para a Esquerda.\n"],
        Or.inl rfl, fun i r hr => ?_⟩
      rw [passo_laco nome esq dir i out hnf, hr]
      simp only [h1, if_true, he, ne_eq, not_false_eq_true]
  · by_cases h2 : tolower c = 'd'
    · by_cases hd : dir = Sala.NULL
      · refine ⟨Ponto.laco, Sala.node nome esq dir,
          out ++ [anuncio nome] ++ opcoes esq dir
            ++ ["Caminho a direita nao existe. Escolha novamente.\n"],
          Or.inl rfl, fun i r hr => ?_⟩
        rw [passo_laco nome esq dir i out hnf, hr]
        simp [h2, hd]
      · refine ⟨Ponto.laco, dir,
          out ++ [anuncio nome] ++ opcoes esq dir ++ ["-> Seguindo para a Direita.\n"],
          Or.inl rfl, fun i r hr => ?_⟩
        rw [passo_laco nome esq dir i out hnf, hr]
        simp [h2, hd]
    · have h3 : tolower c = 's' := by tauto
      refine ⟨Ponto.fim Termino.sair, Sala.node nome esq dir,
        out ++ [anuncio nome] ++ opcoes esq dir ++ [msgSair],
        Or.inr rfl, fun i r hr => ?_⟩
      rw [passo_laco nome esq dir i out hnf, hr]
      simp [h3, msgSair]

/-- A line of markers and the same markers typed one per line show the same
behaviour at every step. -/
theorem linha_unica_separadas (resto : Stdin) (cs : List Char)
    (hcs : ∀ c ∈ cs, tokenReconhecido c = true) :
    ∀ (a : Sala) (out : List String) (n : Nat),
      mesmoVisivel (executar n ⟨Ponto.laco, a, cs ++ '\n' :: resto, out⟩)
        (executar n ⟨Ponto.laco, a, linhasSeparadas cs ++ resto, out⟩) := by
  induction cs with
  | nil =>
    intro a out n
    exact mesmoVisivel_brancos a ['\n'] resto out n (by decide)
  | cons c cs ih =>
    intro a out n
    have hc : tokenReconhecido c = true := hcs c (List.mem_cons_self _ _)
    have hrest : ∀ x ∈ cs, tokenReconhecido x = true :=
      fun x hx => hcs x (List.mem_cons_of_mem _ hx)
    have hsp := tokenReconhecido_nao_branco c hc
    by_cases hl : ∀ nome esq dir, a = Sala.node nome esq dir → esq = Sala.NULL ∧ dir = Sala.NULL
    · exact mesmoVisivel_sem_leitura a _ _ out n hl
    · cases n with
      | zero => exact ⟨rfl, rfl, rfl⟩
      | succ n =>
        cases a with
        | NULL => exact absurd (fun _ _ _ h => by cases h) hl
        | node nome esq dir =>
          have hnf : ¬ (esq = Sala.NULL ∧ dir = Sala.NULL) := by
            intro h
            apply hl
            intro nome2 esq2 dir2 heq
            cases heq
            exact h
          obtain ⟨p, a2, o2, hp, hpasso⟩ := passo_reconhecido nome esq dir c out hnf hc
          have hin2 : linhasSeparadas (c :: cs) ++ resto =
              c :: ('\n' :: (linhasSeparadas cs ++ resto)) := by
            simp [linhasSeparadas, List.flatMap_cons]
          have h1 := hpasso (c :: cs ++ '\n' :: resto) (cs ++ '\n' :: resto)
            (by rw [List.cons_append]; exact scanfChar_cons c _ hsp)
          have h2 := hpasso (linhasSeparadas (c :: cs) ++ resto)
            ('\n' :: (linhasSeparadas cs ++ resto))
            (by rw [hin2]; exact scanfChar_cons c _ hsp)
          simp only [executar, h1, h2]
          rcases hp with hp | hp
          · subst hp
            exact mesmoVisivel_trans (ih hrest a2 o2 n)
              (by
                have := mesmoVisivel_brancos a2 ['\n'] (linhasSeparadas cs ++ resto) o2 n
                  (by decide)
                exact ⟨this.1.symm, this.2.1.symm, this.2.2.symm⟩)
          · subst hp
            exact mesmoVisivel_fim _ _ _ _ _ n

/-! ## Paths to the leaves and lines of input: claims -/

/-- Claim C16: on the map of `main`, for every sequence of left and right choices
that leads from the root to a room without children (each choice typed after any
white space), the run ends at that room at the leaf `break`, having printed its
name and the end-of-journey line, with exactly those choices consumed. The
choices `e`, `e`, `e` end at "Despensa" and `e`, `e`, `d`, `d` at "Varanda
Secreta". -/
theorem explorarSalas_caminho_ate_folha :
    (∀ (ts : List (Stdin × Lado)) (folha : String) (resto : Stdin) (n : Nat),
      (∀ t ∈ ts, ∀ b ∈ t.1, isspace b = true) →
      subarvore mapaMain (ts.map Prod.snd) = Sala.node folha Sala.NULL Sala.NULL →
      ∃ o, explorarSalas (ts.length + 1 + n) mapaMain (entradaTokens ts ++ resto) =
        ⟨Ponto.fim Termino.folha, Sala.node folha Sala.NULL Sala.NULL, resto,
          o ++ [anuncio folha, msgFolha]⟩) ∧
    (∀ n, explorarSalas (n + 4) mapaMain ['e', '\n', 'e', '\n', 'e', '\n'] =
        ⟨Ponto.fim Termino.folha, Sala.node "Despensa" Sala.NULL Sala.NULL, ['\n'],
          [msgTitulo, anuncio "Hall de entrada", "Escolha seu proximo caminho: ",
           "[", "e (Esquerda) ", "d (Direita) ", "s (Sair)]: ",
           "-> Seguindo para a Esquerda.\n", anuncio "Sala de Estar",
           "Escolha seu proximo caminho: ", "[", "e (Esquerda) ", "d (Direita) ",
           "s (Sair)]: ", "-> Seguindo para a Esquerda.\n", anuncio "Cozinha",
           "Escolha seu proximo caminho: ", "[", "e (Esquerda) ", "d (Direita) ",
           "s (Sair)]: ", "-> Seguindo para a Esquerda.\n", anuncio "Despensa",
           msgFolha]⟩) ∧
    (∀ n, explorarSalas (n + 5) mapaMain ['e', '\n', 'e', '\n', 'd', '\n', 'd', '\n'] =
        ⟨Ponto.fim Termino.folha, Sala.node "Varanda Secreta" Sala.NULL Sala.NULL, ['\n'],
          [msgTitulo, anuncio "Hall de entrada", "Escolha seu proximo caminho: ",
           "[", "e (Esquerda) ", "d (Direita) ", "s (Sair)]: ",
           "-> Seguindo para a Esquerda.\n", anuncio "Sala de Estar",
           "Escolha seu proximo caminho: ", "[", "e (Esquerda) ", "d (Direita) ",
           "s (Sair)]: ", "-> Seguindo para a Esquerda.\n", anuncio "Cozinha",
           "Escolha seu proximo caminho: ", "[", "e (Esquerda) ", "d (Direita) ",
           "s (Sair)]: ", "-> Seguindo para a Direita.\n", anuncio "Copa",
           "Escolha seu proximo caminho: ", "[", "d (Direita) ", "s (Sair)]: ",
           "-> Seguindo para a Direita.\n", anuncio "Varanda Secreta", msgFolha]⟩) := by
  refine ⟨?_, ?_, ?_⟩
  · intro ts folha resto n hb hsub
    obtain ⟨o, ho⟩ := explorarSalas_percorre folha resto ts mapaMain [msgTitulo] hb hsub
    refine ⟨o, ?_⟩
    unfold explorarSalas
    rw [executar_add, mapaMain_node, entrar_node, ← mapaMain_node, ho, executar_fim]
  · intro n
    have h : explorarSalas 4 mapaMain ['e', '\n', 'e', '\n', 'e', '\n'] =
        ⟨Ponto.fim Termino.folha, Sala.node "Despensa" Sala.NULL Sala.NULL, ['\n'],
          [msgTitulo, anuncio "Hall de entrada", "Escolha seu proximo caminho: ",
           "[", "e (Esquerda) ", "d (Direita) ", "s (Sair)]: ",
           "-> Seguindo para a Esquerda.\n", anuncio "Sala de Estar",
           "Escolha seu proximo caminho: ", "[", "e (Esquerda) ", "d (Direita) ",
           "s (Sair)]: ", "-> Seguindo para a Esquerda.\n", anuncio "Cozinha",
           "Escolha seu proximo caminho: ", "[", "e (Esquerda) ", "d (Direita) ",
           "s (Sair)]: ", "-> Seguindo para a Esquerda.\n", anuncio "Despensa",
           msgFolha]⟩ := by decide
    have hadd : explorarSalas (n + 4) mapaMain ['e', '\n', 'e', '\n', 'e', '\n'] =
        executar n (explorarSalas 4 mapaMain ['e', '\n', 'e', '\n', 'e', '\n']) := by
      unfold explorarSalas
      rw [Nat.add_comm, executar_add]
    rw [hadd, h, executar_fim]
  · intro n
    have h : explorarSalas 5 mapaMain ['e', '\n', 'e', '\n', 'd', '\n', 'd', '\n'] =
        ⟨Ponto.fim Termino.folha, Sala.node "Varanda Secreta" Sala.NULL Sala.NULL, ['\n'],
          [msgTitulo, anuncio "Hall de entrada", "Escolha seu proximo caminho: ",
           "[", "e (Esquerda) ", "d (Direita) ", "s (Sair)]: ",
           "-> Seguindo para a Esquerda.\n", anuncio "Sala de Estar",
           "Escolha seu proximo caminho: ", "[", "e (Esquerda) ", "d (Direita) ",
           "s (Sair)]: ", "-> Seguindo para a Esquerda.\n", anuncio "Cozinha",
           "Escolha seu proximo caminho: ", "[", "e (Esquerda) ", "d (Direita) ",
           "s (Sair)]: ", "-> Seguindo para a Direita.\n", anuncio "Copa",
           "Escolha seu proximo caminho: ", "[", "d (Direita) ", "s (Sair)]: ",
           "-> Seguindo para a Direita.\n", anuncio "Varanda Secreta", msgFolha]⟩ := by decide
    have hadd : explorarSalas (n + 5) mapaMain ['e', '\n', 'e', '\n', 'd', '\n', 'd', '\n'] =
        executar n (explorarSalas 5 mapaMain ['e', '\n', 'e', '\n', 'd', '\n', 'd', '\n']) := by
      unfold explorarSalas
      rw [Nat.add_comm, executar_add]
    rw [hadd, h, executar_fim]

theorem explorarSalas_caminho_ate_folha_witness :
    ∃ o, explorarSalas ([([], Lado.esquerda), (['\n'], Lado.direita)].length + 1 + 0) mapaMain
        (entradaTokens [([], Lado.esquerda), (['\n'], Lado.direita)] ++ ['\n', 's']) =
      ⟨Ponto.fim Termino.folha, Sala.node "Jardim de Inverno" Sala.NULL Sala.NULL, ['\n', 's'],
        o ++ [anuncio "Jardim de Inverno", msgFolha]⟩ :=
  explorarSalas_caminho_ate_folha.1 [([], Lado.esquerda), (['\n'], Lado.direita)]
    "Jardim de Inverno" ['\n', 's'] 0 (by decide) (by decide)

/-- Claim C18 as stated fails: on the map of `main`, an empty line followed by the
line `s` is not reported as an invalid option. The first pass skips the empty line
as white space, reads `s` and ends the run; the invalid-option report is never
printed. -/
theorem explorarSalas_linha_vazia_sem_relato :
    (∀ k, msgInvalida ∉ (explorarSalas k mapaMain ['\n', 's', '\n']).stdout) ∧
    (∀ k, explorarSalas (k + 1) mapaMain ['\n', 's', '\n'] =
        ⟨Ponto.fim Termino.sair, mapaMain, ['\n'],
          [msgTitulo, anuncio "Hall de entrada", "Escolha seu proximo caminho: ",
           "[", "e (Esquerda) ", "d (Direita) ", "s (Sair)]: ", msgSair]⟩) := by
  have h1 : ∀ k, explorarSalas (k + 1) mapaMain ['\n', 's', '\n'] =
        ⟨Ponto.fim Termino.sair, mapaMain, ['\n'],
          [msgTitulo, anuncio "Hall de entrada", "Escolha seu proximo caminho: ",
           "[", "e (Esquerda) ", "d (Direita) ", "s (Sair)]: ", msgSair]⟩ := by
    intro k
    have h : explorarSalas 1 mapaMain ['\n', 's', '\n'] =
        ⟨Ponto.fim Termino.sair, mapaMain, ['\n'],
          [msgTitulo, anuncio "Hall de entrada", "Escolha seu proximo caminho: ",
           "[", "e (Esquerda) ", "d (Direita) ", "s (Sair)]: ", msgSair]⟩ := by decide
    have hadd : explorarSalas (k + 1) mapaMain ['\n', 's', '\n'] =
        executar k (explorarSalas 1 mapaMain ['\n', 's', '\n']) := by
      unfold explorarSalas
      rw [Nat.add_comm, executar_add]
    rw [hadd, h, executar_fim]
  refine ⟨?_, h1⟩
  intro k
  cases k with
  | zero => decide
  | succ k => rw [h1]; decide

/-- Claim C18, amended: at a room with a child, an empty line, like any run of
white space typed before the next character, is skipped by `scanf(" %c", ...)`
without any report: the run goes on, at every later step, exactly as on the input
without that white space. -/
theorem explorarSalas_linha_vazia_ignorada (nome : String) (esq dir : Sala)
    (brancos seguinte : Stdin) (out : List String) (n : Nat)
    (hnf : ¬ (esq = Sala.NULL ∧ dir = Sala.NULL))
    (hb : ∀ b ∈ brancos, isspace b = true) :
    executar (n + 1) ⟨Ponto.laco, Sala.node nome esq dir, brancos ++ seguinte, out⟩ =
      executar (n + 1) ⟨Ponto.laco, Sala.node nome esq dir, seguinte, out⟩ := by
  simp only [executar, passo_pula_brancos nome esq dir brancos seguinte out hnf hb]

theorem explorarSalas_linha_vazia_ignorada_witness :
    executar (0 + 1) ⟨Ponto.laco, Sala.node "Biblioteca" Sala.NULL
        (Sala.node "Quarto Principal" Sala.NULL Sala.NULL), ['\n'] ++ ['d', '\n'], []⟩ =
      executar (0 + 1) ⟨Ponto.laco, Sala.node "Biblioteca" Sala.NULL
        (Sala.node "Quarto Principal" Sala.NULL Sala.NULL), ['d', '\n'], []⟩ :=
  explorarSalas_linha_vazia_ignorada "Biblioteca" Sala.NULL
    (Sala.node "Quarto Principal" Sala.NULL Sala.NULL) ['\n'] ['d', '\n'] [] 0
    (by decide) (by decide)

/-- Claim C19: at a room with a child, after a character is read the input left is
what follows that character, and the line-discarding loop is entered exactly when
the character is none of the markers. Hence, from any room, a line made of markers
and the same markers typed one per line show at every step the same program point,
the same current room and the same output. On the map of `main` the single line
`eee` ends at the leaf "Despensa", and the single line `es` moves to "Sala de
Estar" and ends there at the `return` of `case 's'`. -/
theorem explorarSalas_linha_de_varias_escolhas :
    (∀ (nome : String) (esq dir : Sala) (i r : Stdin) (c : Char) (out : List String),
      ¬ (esq = Sala.NULL ∧ dir = Sala.NULL) →
      scanfChar i = (some c, r) →
      (passo ⟨Ponto.laco, Sala.node nome esq dir, i, out⟩).stdin = r ∧
      ((passo ⟨Ponto.laco, Sala.node nome esq dir, i, out⟩).ponto = Ponto.limpando ↔
        tokenReconhecido c = false)) ∧
    (∀ (a : Sala) (cs : List Char) (resto : Stdin) (out : List String) (n : Nat),
      (∀ c ∈ cs, tokenReconhecido c = true) →
      mesmoVisivel (executar n ⟨Ponto.laco, a, cs ++ '\n' :: resto, out⟩)
        (executar n ⟨Ponto.laco, a, linhasSeparadas cs ++ resto, out⟩)) ∧
    (∀ n, explorarSalas (n + 4) mapaMain ['e', 'e', 'e', '\n'] =
        ⟨Ponto.fim Termino.folha, Sala.node "Despensa" Sala.NULL Sala.NULL, ['\n'],
          [msgTitulo, anuncio "Hall de entrada", "Escolha seu proximo caminho: ",
           "[", "e (Esquerda) ", "d (Direita) ", "s (Sair)]: ",
           "-> Seguindo para a Esquerda.\n", anuncio "Sala de Estar",
           "Escolha seu proximo caminho: ", "[", "e (Esquerda) ", "d (Direita) ",
           "s (Sair)]: ", "-> Seguindo para a Esquerda.\n", anuncio "Cozinha",
           "Escolha seu proximo caminho: ", "[", "e (Esquerda) ", "d (Direita) ",
           "s (Sair)]: ", "-> Seguindo para a Esquerda.\n", anuncio "Despensa",
           msgFolha]⟩) ∧
    mapaMain.esquerda.nome = "Sala de Estar" ∧
    (∀ n, explorarSalas (n + 2) mapaMain ['e', 's', '\n'] =
        ⟨Ponto.fim Termino.sair, mapaMain.esquerda, ['\n'],
          [msgTitulo, anuncio "Hall de entrada", "Escolha seu proximo caminho: ",
           "[", "e (Esquerda) ", "d (Direita) ", "s (Sair)]: ",
           "-> Seguindo para a Esquerda.\n", anuncio "Sala de Estar",
           "Escolha seu proximo caminho: ", "[", "e (Esquerda) ", "d (Direita) ",
           "s (Sair)]: ", msgSair]⟩) := by
  refine ⟨?_, ?_, ?_, by decide, ?_⟩
  · intro nome esq dir i r c out hnf hr
    rw [passo_laco nome esq dir i out hnf, hr]
    simp only [tokenReconhecido]
    by_cases h1 : tolower c = 'e'
    · by_cases he : esq = Sala.NULL <;> simp [h1, he]
    · by_cases h2 : tolower c = 'd'
      · by_cases hd : dir = Sala.NULL <;> simp [h2, hd]
      · by_cases h3 : tolower c = 's'
        · simp [h3]
        · simp [h1, h2, h3]
  · intro a cs resto out n hcs
    exact linha_unica_separadas resto cs hcs a out n
  · intro n
    have h : explorarSalas 4 mapaMain ['e', 'e', 'e', '\n'] =
        ⟨Ponto.fim Termino.folha, Sala.node "Despensa" Sala.NULL Sala.NULL, ['\n'],
          [msgTitulo, anuncio "Hall de entrada", "Escolha seu proximo caminho: ",
           "[", "e (Esquerda) ", "d (Direita) ", "s (Sair)]: ",
           "-> Seguindo para a Esquerda.\n", anuncio "Sala de Estar",
           "Escolha seu proximo caminho: ", "[", "e (Esquerda) ", "d (Direita) ",
           "s (Sair)]: ", "-> Seguindo para a Esquerda.\n", anuncio "Cozinha",
           "Escolha seu proximo caminho: ", "[", "e (Esquerda) ", "d (Direita) ",
           "s (Sair)]: ", "-> Seguindo para a Esquerda.\n", anuncio "Despensa",
           msgFolha]⟩ := by decide
    have hadd : explorarSalas (n + 4) mapaMain ['e', 'e', 'e', '\n'] =
        executar n (explorarSalas 4 mapaMain ['e', 'e', 'e', '\n']) := by
      unfold explorarSalas
      rw [Nat.add_comm, executar_add]
    rw [hadd, h, executar_fim]
  · intro n
    have h : explorarSalas 2 mapaMain ['e', 's', '\n'] =
        ⟨Ponto.fim Termino.sair, mapaMain.esquerda, ['\n'],
          [msgTitulo, anuncio "Hall de entrada", "Escolha seu proximo caminho: ",
           "[", "e (Esquerda) ", "d (Direita) ", "s (Sair)]: ",
           "-> Seguindo para a Esquerda.\n", anuncio "Sala de Estar",
           "Escolha seu proximo caminho: ", "[", "e (Esquerda) ", "d (Direita) ",
           "s (Sair)]: ", msgSair]⟩ := by decide
    have hadd : explorarSalas (n + 2) mapaMain ['e', 's', '\n'] =
        executar n (explorarSalas 2 mapaMain ['e', 's', '\n']) := by
      unfold explorarSalas
      rw [Nat.add_comm, executar_add]
    rw [hadd, h, executar_fim]

theorem explorarSalas_linha_de_varias_escolhas_witness :
    mesmoVisivel
      (executar 3 ⟨Ponto.laco, mapaMain, ['d', 'E', 'D'] ++ '\n' :: ['x'], [msgTitulo]⟩)
      (executar 3 ⟨Ponto.laco, mapaMain, linhasSeparadas ['d', 'E', 'D'] ++ ['x'],
        [msgTitulo]⟩) :=
  explorarSalas_linha_de_varias_escolhas.2.1 mapaMain ['d', 'E', 'D'] ['x'] [msgTitulo] 3
    (by decide)

/-! ## Termination: basic facts -/

theorem pularEspacos_head (i : Stdin) (x : Char) (xs : Stdin)
    (h : pularEspacos i = x :: xs) : isspace x = false := by
  induction i with
  | nil => simp [pularEspacos] at h
  | cons c r ih =>
    simp only [pularEspacos] at h
    split_ifs at h with hc
    · exact ih h
    · simp only [List.cons.injEq] at h
      rw [← h.1]
      simpa using hc

theorem niveis_esquerda (s : Sala) (h : s.esquerda ≠ Sala.NULL) :
    niveis s.esquerda + 1 ≤ niveis s := by
  cases s with
  | NULL => exact absurd rfl h
  | node n e d =>
    simp only [Sala.esquerda, niveis]
    have := Nat.le_max_left (niveis e) (niveis d)
    omega

theorem niveis_direita (s : Sala) (h : s.direita ≠ Sala.NULL) :
    niveis s.direita + 1 ≤ niveis s := by
  cases s with
  | NULL => exact absurd rfl h
  | node n e d =>
    simp only [Sala.direita, niveis]
    have := Nat.le_max_right (niveis e) (niveis d)
    omega

theorem niveis_pos (s : Sala) (h : s ≠ Sala.NULL) : 1 ≤ niveis s := by
  cases s with
  | NULL => exact absurd rfl h
  | node n e d => simp [niveis]

theorem executar_atual_ne_NULL (n : Nat) (st : Estado) (h : st.atual ≠ Sala.NULL) :
    (executar n st).atual ≠ Sala.NULL := by
  induction n generalizing st with
  | zero => exact h
  | succ n ih =>
    simp only [executar]
    apply ih
    rcases passo_atual st with h1 | ⟨_, h1⟩ | ⟨_, h1⟩
    · rw [h1]; exact h
    · exact h1
    · exact h1

/-- Each successful move goes one level down: the moves made plus the levels of
the room reached never exceed the levels of the room started from. -/
theorem movimentos_niveis (n : Nat) (st : Estado) :
    movimentos n st + niveis (executar n st).atual ≤ niveis st.atual := by
  induction n generalizing st with
  | zero => simp [movimentos, executar]
  | succ n ih =>
    simp only [movimentos, executar]
    have hih := ih (passo st)
    have hstep : (if moveu st = true then 1 else 0) + niveis (passo st).atual ≤
        niveis st.atual := by
      rcases passo_atual st with h1 | ⟨h1, h2⟩ | ⟨h1, h2⟩
      · simp [moveu, h1]
      · have := niveis_esquerda st.atual (h1 ▸ h2)
        rw [h1]
        split_ifs <;> omega
      · have := niveis_direita st.atual (h1 ▸ h2)
        rw [h1]
        split_ifs <;> omega
    omega

theorem pularEspacos_length (i : Stdin) : (pularEspacos i).length ≤ i.length := by
  induction i with
  | nil => simp [pularEspacos]
  | cons c r ih =>
    simp only [pularEspacos]
    split_ifs
    · exact Nat.le_succ_of_le ih
    · exact le_refl _

theorem scanfChar_length (i r : Stdin) (c : Char) (h : scanfChar i = (some c, r)) :
    r.length < i.length := by
  have hlen := pularEspacos_length i
  simp only [scanfChar] at h
  cases hp : pularEspacos i with
  | nil => rw [hp] at h; cases h
  | cons x xs =>
    rw [hp] at h hlen
    simp only [Prod.mk.injEq, Option.some.injEq] at h
    rw [← h.2]
    simpa using hlen

/-- A step from a state that is neither over nor stuck at the end of the input in
the line-discarding loop ends the run or consumes input. -/
theorem passo_progresso (st : Estado) :
    (∃ t, st.ponto = Ponto.fim t) ∨ (st.ponto = Ponto.limpando ∧ st.stdin = []) ∨
      (∃ t, (passo st).ponto = Ponto.fim t) ∨ (passo st).stdin.length < st.stdin.length := by
  rcases st with ⟨p, a, i, o⟩
  cases p with
  | fim t => exact Or.inl ⟨t, rfl⟩
  | limpando =>
    cases i with
    | nil => exact Or.inr (Or.inl ⟨rfl, rfl⟩)
    | cons c r =>
      right; right; right
      by_cases hc : c = '\n' <;> simp [passo, getchar, hc]
  | laco =>
    right; right
    cases a with
    | NULL => left; exact ⟨Termino.condicaoFalsa, by simp [passo]⟩
    | node nome esq dir =>
      by_cases hnf : esq = Sala.NULL ∧ dir = Sala.NULL
      · left; exact ⟨Termino.folha, by simp [passo, hnf]⟩
      · rw [passo_laco nome esq dir i o hnf]
        cases hs : scanfChar i with
        | mk oc r =>
          cases oc with
          | none => left; exact ⟨Termino.erroLeitura, rfl⟩
          | some c =>
            have hlen := scanfChar_length i r c hs
            dsimp only
            split_ifs
            · right; exact hlen
            · right; exact hlen
            · right; exact hlen
            · right; exact hlen
            · left; exact ⟨Termino.sair, rfl⟩
            · right; exact hlen

/-- Every run reaches, within as many steps as there are characters to read plus
one, either its end or the line-discarding loop with nothing left to read. -/
theorem executar_termina_ou_prende (L : Nat) :
    ∀ st : Estado, st.stdin.length ≤ L →
      ∃ n, n ≤ L + 1 ∧
        ((∃ t, (executar n st).ponto = Ponto.fim t) ∨
          ((executar n st).ponto = Ponto.limpando ∧ (executar n st).stdin = [])) := by
  induction L with
  | zero =>
    intro st hL
    rcases passo_progresso st with h | h | h | h
    · exact ⟨0, by omega, Or.inl h⟩
    · exact ⟨0, by omega, Or.inr h⟩
    · exact ⟨1, by omega, Or.inl h⟩
    · omega
  | succ L ih =>
    intro st hL
    rcases passo_progresso st with h | h | h | h
    · exact ⟨0, by omega, Or.inl h⟩
    · exact ⟨0, by omega, Or.inr h⟩
    · exact ⟨1, by omega, Or.inl h⟩
    · obtain ⟨n, hn, hres⟩ := ih (passo st) (by omega)
      exact ⟨n + 1, by omega, hres⟩

/-- Once in the line-discarding loop with no line feed left in the input, the run
stays in that loop for ever. -/
theorem limpando_sem_linha (a : Sala) (o : List String) (m : Nat) :
    ∀ r : Stdin, '\n' ∉ r →
      executar m ⟨Ponto.limpando, a, r, o⟩ = ⟨Ponto.limpando, a, r.drop m, o⟩ := by
  induction m with
  | zero => intro r _; rfl
  | succ m ih =>
    intro r hr
    cases r with
    | nil =>
      simp only [executar, passo_limpando_eof, List.drop_nil]
      exact (ih [] hr).trans (by simp)
    | cons x xs =>
      have hx : x ≠ '\n' := fun h => hr (h ▸ List.mem_cons_self _ _)
      have hxs : '\n' ∉ xs := fun h => hr (List.mem_cons_of_mem _ h)
      have hstep : passo ⟨Ponto.limpando, a, x :: xs, o⟩ = ⟨Ponto.limpando, a, xs, o⟩ := by
        simp [passo, getchar, hx]
      simp only [executar, hstep, List.drop_succ_cons]
      exact ih xs hxs

/-- How a step can lead into the line-discarding loop: from that loop, on the end
of the input or on a character other than the line feed, or from the loop head at
a room with a child where the character read is none of the markers. -/
theorem passo_limpando_origem (st : Estado) (h : (passo st).ponto = Ponto.limpando) :
    (st.ponto = Ponto.limpando ∧
      ((st.stdin = [] ∧ (passo st).stdin = []) ∨
        ∃ c, c ≠ '\n' ∧ st.stdin = c :: (passo st).stdin)) ∨
    (∃ nome esq dir c, st.ponto = Ponto.laco ∧ st.atual = Sala.node nome esq dir ∧
      ¬ (esq = Sala.NULL ∧ dir = Sala.NULL) ∧
      scanfChar st.stdin = (some c, (passo st).stdin) ∧ tokenInvalido c = true) := by
  rcases st with ⟨p, a, i, o⟩
  cases p with
  | fim t => simp [passo] at h
  | limpando =>
    left
    refine ⟨rfl, ?_⟩
    cases i with
    | nil => left; exact ⟨rfl, by simp [passo, getchar]⟩
    | cons c r =>
      right
      by_cases hc : c = '\n'
      · simp [passo, getchar, hc] at h
      · exact ⟨c, hc, by simp [passo, getchar, hc]⟩
  | laco =>
    right
    cases a with
    | NULL => simp [passo] at h
    | node nome esq dir =>
      by_cases hnf : esq = Sala.NULL ∧ dir = Sala.NULL
      · simp [passo, hnf] at h
      · refine ⟨nome, esq, dir, ?_⟩
        rw [passo_laco nome esq dir i o hnf] at h ⊢
        cases hs : scanfChar i with
        | mk oc r =>
          rw [hs] at h
          cases oc with
          | none => simp at h
          | some c =>
            have hsp : isspace c = false := by
              simp only [scanfChar] at hs
              cases hp : pularEspacos i with
              | nil => rw [hp] at hs; cases hs
              | cons x xs =>
                rw [hp] at hs
                simp only [Prod.mk.injEq, Option.some.injEq] at hs
                have := pularEspacos_head i x xs hp
                rw [← hs.1]; exact this
            dsimp only at h ⊢
            by_cases h1 : tolower c = 'e'
            · by_cases he : esq = Sala.NULL <;> simp [h1, he] at h
            · by_cases h2 : tolower c = 'd'
              · by_cases hd : dir = Sala.NULL <;> simp [h2, hd] at h
              · by_cases h3 : tolower c = 's'
                · simp [h3] at h
                · refine ⟨c, rfl, rfl, hnf, ?_, ?_⟩
                  · simp [h1, h2, h3]
                  · simp [tokenInvalido, hsp, h1, h2, h3]

/-! ## Termination: claim -/

/-- Claim C20: for every map and every input in which each character read as a
choice that is none of the markers has a line feed somewhere after it, the run of
`explorarSalas` is over within as many steps as the input has characters plus
one, and stays over. For every map and input, the successful moves made in any
number of steps are at most the height of the map. And when a character read as a
choice is none of the markers and no line feed follows it before the end of the
input, every later state is inside `while (getchar() != '\n');`: that loop never
exits. -/
theorem explorarSalas_termina_ou_fica_no_laco_de_limpeza :
    (∀ (raiz : Sala) (entrada : Stdin),
      (∀ (n : Nat) (nome : String) (esq dir : Sala) (i : Stdin) (o : List String)
          (c : Char) (r : Stdin),
        explorarSalas n raiz entrada = ⟨Ponto.laco, Sala.node nome esq dir, i, o⟩ →
        ¬ (esq = Sala.NULL ∧ dir = Sala.NULL) →
        scanfChar i = (some c, r) → tokenInvalido c = true → '\n' ∈ r) →
      ∃ n t, n ≤ entrada.length + 1 ∧
        ∀ m, (explorarSalas (n + m) raiz entrada).ponto = Ponto.fim t) ∧
    (∀ (raiz : Sala) (entrada : Stdin) (n : Nat),
      movimentos n (entrar raiz entrada) ≤ altura raiz) ∧
    (∀ (raiz : Sala) (entrada : Stdin) (n : Nat) (nome : String) (esq dir : Sala)
        (i : Stdin) (o : List String) (c : Char) (r : Stdin),
      explorarSalas n raiz entrada = ⟨Ponto.laco, Sala.node nome esq dir, i, o⟩ →
      ¬ (esq = Sala.NULL ∧ dir = Sala.NULL) →
      scanfChar i = (some c, r) → tokenInvalido c = true → '\n' ∉ r →
      ∀ m, (explorarSalas (n + 1 + m) raiz entrada).ponto = Ponto.limpando) := by
  refine ⟨?_, ?_, ?_⟩
  · intro raiz entrada h
    have hsucc : ∀ n, explorarSalas (n + 1) raiz entrada =
        passo (explorarSalas n raiz entrada) := by
      intro n
      unfold explorarSalas
      exact executar_succ n _
    have inv : ∀ n, (explorarSalas n raiz entrada).ponto = Ponto.limpando →
        '\n' ∈ (explorarSalas n raiz entrada).stdin := by
      intro n
      induction n with
      | zero =>
        intro hp
        cases raiz <;> simp [explorarSalas, executar, entrar] at hp
      | succ n ih =>
        intro hp
        rw [hsucc] at hp ⊢
        rcases passo_limpando_origem _ hp with ⟨hl, hcase⟩ | ⟨nome, esq, dir, c, hl, ha, hnf, hs, hc⟩
        · have hmem := ih hl
          rcases hcase with ⟨hnil, _⟩ | ⟨c, hc, hcons⟩
          · rw [hnil] at hmem; cases hmem
          · rw [hcons] at hmem
            rcases List.mem_cons.1 hmem with h1 | h1
            · exact absurd h1.symm hc
            · exact h1
        · refine h n nome esq dir (explorarSalas n raiz entrada).stdin
            (explorarSalas n raiz entrada).stdout c _ ?_ hnf hs hc
          rw [← hl, ← ha]
    have hlen : (entrar raiz entrada).stdin.length ≤ entrada.length := by
      cases raiz <;> simp [entrar]
    obtain ⟨n, hn, hres⟩ := executar_termina_ou_prende entrada.length _ hlen
    rcases hres with ⟨t, ht⟩ | ⟨hp, hnil⟩
    · refine ⟨n, t, hn, fun m => ?_⟩
      have hadd : explorarSalas (n + m) raiz entrada =
          executar m (explorarSalas n raiz entrada) := by
        unfold explorarSalas
        exact executar_add n m _
      have hst : explorarSalas n raiz entrada =
          ⟨Ponto.fim t, (explorarSalas n raiz entrada).atual,
            (explorarSalas n raiz entrada).stdin, (explorarSalas n raiz entrada).stdout⟩ := by
        have : (explorarSalas n raiz entrada).ponto = Ponto.fim t := ht
        rw [← this]
      rw [hadd, hst, executar_fim]
    · have hmem := inv n hp
      have hnil2 : (explorarSalas n raiz entrada).stdin = [] := hnil
      rw [hnil2] at hmem
      cases hmem
  · intro raiz entrada n
    have hmn := movimentos_niveis n (entrar raiz entrada)
    have hraiz : (entrar raiz entrada).atual = raiz := by cases raiz <;> rfl
    rw [hraiz] at hmn
    unfold altura
    by_cases hnull : raiz = Sala.NULL
    · subst hnull
      simp only [niveis] at hmn ⊢
      omega
    · have hpos := niveis_pos _
        (executar_atual_ne_NULL n (entrar raiz entrada) (by rw [hraiz]; exact hnull))
      omega
  · intro raiz entrada n nome esq dir i o c r hst hnf hs hc hr m
    have hadd : explorarSalas (n + 1 + m) raiz entrada =
        executar m (passo (explorarSalas n raiz entrada)) := by
      unfold explorarSalas
      rw [executar_add, executar_succ]
    rw [hadd, hst, passo_invalido nome esq dir i r c o hnf hs hc,
      limpando_sem_linha _ _ m r hr]

theorem explorarSalas_termina_ou_fica_no_laco_de_limpeza_witness :
    ∃ n t, n ≤ ['x', '\n'].length + 1 ∧
      ∀ m, (explorarSalas (n + m) mapaMain ['x', '\n']).ponto = Ponto.fim t :=
  explorarSalas_termina_ou_fica_no_laco_de_limpeza.1 mapaMain ['x', '\n'] (by
    intro n nome esq dir i o c r hst hnf hs hc
    have h0 : explorarSalas 0 mapaMain ['x', '\n'] =
        ⟨Ponto.laco, mapaMain, ['x', '\n'], [msgTitulo]⟩ := by decide
    have h1 : (explorarSalas 1 mapaMain ['x', '\n']).ponto = Ponto.limpando := by decide
    have h2 : (explorarSalas 2 mapaMain ['x', '\n']).stdin = [] := by decide
    have h3 : (explorarSalas 3 mapaMain ['x', '\n']).ponto =
        Ponto.fim Termino.erroLeitura := by decide
    match n with
    | 0 =>
      rw [h0] at hst
      have hi : i = ['x', '\n'] := by
        have := congrArg Estado.stdin hst
        exact this.symm
      subst hi
      have hread : scanfChar ['x', '\n'] = (some 'x', ['\n']) := by decide
      rw [hread] at hs
      simp only [Prod.mk.injEq] at hs
      rw [← hs.2]
      exact List.mem_singleton.2 rfl
    | 1 =>
      rw [hst] at h1
      cases h1
    | 2 =>
      rw [hst] at h2
      have hi : i = [] := h2
      subst hi
      have hread : scanfChar [] = (none, []) := by decide
      rw [hread] at hs
      cases hs
    | k + 3 =>
      have hadd : explorarSalas (k + 3) mapaMain ['x', '\n'] =
          executar k (explorarSalas 3 mapaMain ['x', '\n']) := by
        unfold explorarSalas
        rw [Nat.add_comm, executar_add]
      have hfim : (explorarSalas (k + 3) mapaMain ['x', '\n']).ponto =
          Ponto.fim Termino.erroLeitura := by
        rw [hadd]
        have hst3 : explorarSalas 3 mapaMain ['x', '\n'] =
            ⟨Ponto.fim Termino.erroLeitura, (explorarSalas 3 mapaMain ['x', '\n']).atual,
              (explorarSalas 3 mapaMain ['x', '\n']).stdin,
              (explorarSalas 3 mapaMain ['x', '\n']).stdout⟩ := by
          rw [← h3]
        rw [hst3, executar_fim]
      rw [hst] at hfim
      cases hfim)

end DetectiveQuest
